import Mathlib

/-!
Shallow embedding of the mtg2f conversion engine
(`src/converter/quality_control.py` and `src/converter/converters.py`)
and proofs of the specification claims about it.

Normalised long-format records are modelled as `Row`; the converter
configuration (constructor arguments of `IlluminaReportConverter`) as
`Config`; Python `ValueError` / format exceptions as the inductive
`ConvErr`, with each constructor carrying the data the corresponding
exception message names.  Output lines are Lean `String`s built with the
same tab-separated shape as the Python f-strings.
-/

namespace Mtg2f

/-- One normalised long-format record, as produced by either reader.
Field names follow the keys of `DEFAULT_COLUMN_MAP`. -/
structure Row where
  snp_name : String
  sample_id : String
  allele1 : String
  allele2 : String
  chromosome : String
  position : String
deriving DecidableEq, Inhabited

/-- Constructor arguments of `IlluminaReportConverter` that the conversion
uses (`missing_genotype`, `min_genotype_count`, `sex`, `phenotype`). -/
structure Config where
  missing_genotype : String
  min_genotype_count : Int
  sex : Int
  phenotype : Int
deriving DecidableEq, Inhabited

/-- Errors raised by the conversion engine.  Each constructor records the
data that the corresponding Python exception message carries. -/
inductive ConvErr where
  /-- `validate_biallelic` raising
  `ValueError: SNP <id> (line <n>) has more than 2 alleles: <sorted set>`. -/
  | biallelic (snp_id : String) (line_number : Nat) (alleles : List Char)
  /-- `convert` raising `ValueError: Unexpected genotype <g> for SNP <id>, sample <sid>`. -/
  | badGeno (geno snp_id sample_id : String)
  /-- `read_wide_format` raising `ValueError: Line <n>: expected <k> genotypes, got <m>`. -/
  | lineGenoCount (line_number expected got : Nat)
  /-- `read_wide_format` raising `ValueError: No individual columns found in the header`. -/
  | noIndividuals
  /-- `convert_file` raising `ValueError: Unknown input_format <fmt>`. -/
  | unknownFormat (fmt : String)
deriving DecidableEq

deriving instance DecidableEq for Except

/-- Auxiliary loop for first-occurrence deduplication: keeps an element
when its key has not been seen yet.  This is the observable behaviour of
`DataFrame.drop_duplicates(subset=[key])` (keep first), of
`dict.fromkeys`, and of Python `set` iteration order for characters, in
the source. -/
def dropDupsByAux {α β : Type} [DecidableEq β] (key : α → β) :
    List α → List β → List α
  | [], _ => []
  | x :: xs, seen =>
    if key x ∈ seen then dropDupsByAux key xs seen
    else x :: dropDupsByAux key xs (key x :: seen)

/-- First-occurrence deduplication by key. -/
def dropDupsBy {α β : Type} [DecidableEq β] (key : α → β) (l : List α) : List α :=
  dropDupsByAux key l []

/-! ### quality_control.py -/

set_option linter.unusedVariables false in
/-- Embedding of `check_genotype_count` (quality_control.py, lines 8-52).
Counts occurrences of each non-missing genotype string; when
`0 < min_count`, every occurrence of a genotype whose count is
`<= min_count` is rewritten to `missing_genotype`.  `min_count <= 0`
returns the input unchanged.  The `snp_id` argument is only used for
logging in the source and is kept for signature fidelity. -/
def check_genotype_count (genotypes : List String) (missing_genotype : String)
    (snp_id : String) (min_count : Int) : List String :=
  if min_count ≤ 0 then genotypes
  else
    genotypes.map (fun g =>
      if g ≠ missing_genotype ∧ 0 < genotypes.count g ∧
          (genotypes.count g : Int) ≤ min_count
      then missing_genotype else g)

/-- Concatenation of the character lists of a list of strings (the
characters scanned by the allele-collection loop of `validate_biallelic`). -/
def charsOf : List String → List Char
  | [] => []
  | g :: gs => g.toList ++ charsOf gs

/-- The set of distinct allele characters appearing in non-missing genotype
calls: the `alleles` set built by `validate_biallelic` (quality_control.py,
lines 72-77). -/
def allelesOf (genotypes : List String) (missing_genotype : String) : Finset Char :=
  (charsOf (genotypes.filter (fun g => g != missing_genotype))).toFinset

/-- Insertion of a character into a sorted character list. -/
def insertChar (c : Char) : List Char → List Char
  | [] => [c]
  | x :: xs => if c ≤ x then c :: x :: xs else x :: insertChar c xs

/-- Insertion sort on characters (the order `sorted` uses on one-character
strings in Python is the code-point order, which is `Char` order). -/
def sortChars : List Char → List Char
  | [] => []
  | x :: xs => insertChar x (sortChars xs)

/-- The distinct allele characters of the non-missing calls, in first-seen
order. -/
def distinctAlleles (genotypes : List String) (missing_genotype : String) : List Char :=
  dropDupsBy (fun c => c) (charsOf (genotypes.filter (fun g => g != missing_genotype)))

/-- Python `sorted(alleles)`: the distinct allele characters in increasing
order. -/
def sortedAllelesOf (genotypes : List String) (missing_genotype : String) : List Char :=
  sortChars (distinctAlleles genotypes missing_genotype)

/-- Embedding of `validate_biallelic` (quality_control.py, lines 55-83).
Fails when more than 2 distinct characters appear among non-missing calls;
the error carries the snp id, the reported line number and the sorted
character set, exactly the data interpolated into the Python message. -/
def validate_biallelic (genotypes : List String) (missing_genotype : String)
    (snp_id : String) (line_number : Nat) : Except ConvErr Unit :=
  if 2 < (allelesOf genotypes missing_genotype).card then
    .error (.biallelic snp_id line_number (sortedAllelesOf genotypes missing_genotype))
  else
    .ok ()

/-! ### converters.py: helpers shared by `convert` -/

/-- The combined `_geno` column: `allele1 + allele2` (converters.py, line 287). -/
def geno (r : Row) : String :=
  r.allele1 ++ r.allele2

/-- Index of the first occurrence of `s` (the value a Python
`{v: i for i, v in enumerate(l)}` lookup returns for a present key). -/
def idxOfStr (s : String) : List String → Nat
  | [] => 0
  | x :: xs => if x = s then 0 else idxOfStr s xs + 1

/-- The `snp_info` frame: first row per SNP name, in first-appearance
order (converters.py, lines 264-268). -/
def snpInfoOf (rows : List Row) : List Row :=
  dropDupsBy (fun r => r.snp_name) rows

/-- The `snp_order` list (converters.py, line 269). -/
def snpOrderOf (rows : List Row) : List String :=
  (snpInfoOf rows).map (fun r => r.snp_name)

/-- The `individuals` list: distinct sample ids in first-appearance order
(converters.py, line 273). -/
def individualsOf (rows : List Row) : List String :=
  dropDupsBy (fun s => s) (rows.map (fun r => r.sample_id))

/-- One MAP line (converters.py, lines 279-283): `chrom\tsnp\t0\tpos`,
with chromosome `PseudoX` rewritten to `XY`. -/
def mapLine (r : Row) : String :=
  (if r.chromosome = "PseudoX" then "XY" else r.chromosome) ++
    "\t" ++ r.snp_name ++ "\t0\t" ++ r.position

/-- One PED line (converters.py, lines 334-338). -/
def pedLine (cfg : Config) (ind_id : String) (cells : List String) : String :=
  ind_id ++ "\t" ++ ind_id ++ "\t0\t0\t" ++ toString cfg.sex ++ "\t" ++
    toString cfg.phenotype ++ "\t" ++ String.intercalate "\t" cells

/-- Whether `needle` starts `hay` (character-level). -/
def startsWithList (needle hay : List Char) : Bool :=
  match needle, hay with
  | [], _ => true
  | _ :: _, [] => false
  | a :: as, b :: bs => a = b && startsWithList as bs

/-- Whether `needle` occurs as a contiguous run inside `hay`. -/
def hasSubList (needle hay : List Char) : Bool :=
  match hay with
  | [] => startsWithList needle []
  | _ :: rest => startsWithList needle hay || hasSubList needle rest

/-- Python substring containment `needle in hay` for strings. -/
def strHasSub (needle hay : String) : Bool :=
  hasSubList needle.toList hay.toList

/-- Rendering of a called genotype cell: `f'{geno[0]}\t{geno[1]}'`. -/
def renderPair (a b : Char) : String :=
  String.singleton a ++ "\t" ++ String.singleton b

/-- The matrix-fill step for one genotype (converters.py, lines 318-328):
missing or sentinel-containing calls become the uncalled pair `0\t0`;
otherwise the call must be exactly two characters. -/
def fillCell (missing_genotype : String) (g snp_id sample_id : String) :
    Except ConvErr String :=
  if g = missing_genotype ++ missing_genotype ∨ strHasSub missing_genotype g then
    .ok "0\t0"
  else
    match g.toList with
    | [a, b] => .ok (renderPair a b)
    | _ => .error (.badGeno g snp_id sample_id)

/-- Write cell `(i, j)` of the genotype matrix (a no-op out of range, like
`List.set`). -/
def setCell (m : List (List String)) (i j : Nat) (v : String) : List (List String) :=
  m.set i ((m.getD i []).set j v)

/-- Read cell `(i, j)` of the genotype matrix; out-of-range reads give the
pre-allocated uncalled pair. -/
def cell (m : List (List String)) (i j : Nat) : String :=
  (m.getD i []).getD j "0\t0"

/-- The per-group fill loop (converters.py, lines 318-328): for each
`(sample_id, geno)` pair, write the rendered cell into row
`ind_to_index[sample_id]`, column `snpIdx`; later pairs overwrite earlier
ones. -/
def fillPairs (missing_genotype snp_id : String) (individuals : List String)
    (snpIdx : Nat) :
    List (String × String) → List (List String) → Except ConvErr (List (List String))
  | [], m => .ok m
  | (sid, g) :: rest, m =>
    match fillCell missing_genotype g snp_id sid with
    | .error e => .error e
    | .ok v =>
      fillPairs missing_genotype snp_id individuals snpIdx rest
        (setCell m (idxOfStr sid individuals) snpIdx v)

/-- The quality-controlled genotype list of one SNP group: the `_geno`
column of `data.groupby(snp_col)`'s group for `s`, passed through
`check_genotype_count` with the doubled sentinel
(converters.py, lines 300-311). -/
def genosOf (cfg : Config) (rows : List Row) (s : String) : List String :=
  check_genotype_count ((rows.filter (fun r => r.snp_name = s)).map geno)
    (cfg.missing_genotype ++ cfg.missing_genotype) s cfg.min_genotype_count

/-- The sample ids of one SNP group, in input order. -/
def groupSamples (rows : List Row) (s : String) : List String :=
  (rows.filter (fun r => r.snp_name = s)).map (fun r => r.sample_id)

/-- The per-SNP loop of `convert` (converters.py, lines 300-328): for each
SNP in first-appearance order run the low-count filter, then biallelic
validation with the 1-based position, then fill the matrix cells. -/
def processSnps (cfg : Config) (rows : List Row) (individuals : List String) :
    List String → Nat → List (List String) → Except ConvErr (List (List String))
  | [], _, m => .ok m
  | s :: rest, idx, m =>
    let genos := genosOf cfg rows s
    match validate_biallelic genos (cfg.missing_genotype ++ cfg.missing_genotype)
        s (idx + 1) with
    | .error e => .error e
    | .ok _ =>
      match fillPairs cfg.missing_genotype s individuals idx
          ((groupSamples rows s).zip genos) m with
      | .error e => .error e
      | .ok m2 => processSnps cfg rows individuals rest (idx + 1) m2

/-- The pre-allocated genotype matrix: `n_ind` rows of `n_snps` uncalled
pairs (converters.py, lines 295-297). -/
def initMatrix (n_ind n_snps : Nat) : List (List String) :=
  List.replicate n_ind (List.replicate n_snps "0\t0")

/-- The fully filled genotype matrix of a conversion run. -/
def buildMatrix (cfg : Config) (rows : List Row) : Except ConvErr (List (List String)) :=
  processSnps cfg rows (individualsOf rows) (snpOrderOf rows) 0
    (initMatrix (individualsOf rows).length (snpOrderOf rows).length)

/-- The dictionary returned by `convert` (converters.py, lines 340-344). -/
structure ConvertResult where
  mapLines : List String
  pedLines : List String
  individuals : List String
deriving DecidableEq, Inhabited

/-- Embedding of `IlluminaReportConverter.convert` (converters.py,
lines 222-344) on the normalised record list. -/
def convert (cfg : Config) (rows : List Row) : Except ConvErr ConvertResult :=
  match buildMatrix cfg rows with
  | .error e => .error e
  | .ok m =>
    .ok
      { mapLines := (snpInfoOf rows).map mapLine
        pedLines := ((individualsOf rows).zip m).map (fun p => pedLine cfg p.1 p.2)
        individuals := individualsOf rows }

/-! ### converters.py: `convert_file` input-format dispatch -/

/-- The reader actually reachable from `convert_file`. -/
inductive ReaderKind where
  | illuminaReader
deriving DecidableEq

/-- Embedding of the input-format dispatch of `convert_file`
(converters.py, lines 374-382).  In the source the
`elif input_format == 'wide'` branch is commented out, so only
`'illumina'` selects a reader and every other tag — including `'wide'` —
raises `ValueError: Unknown input_format`. -/
def convert_file_select_reader (input_format : String) : Except ConvErr ReaderKind :=
  if input_format = "illumina" then .ok .illuminaReader
  else .error (.unknownFormat input_format)

/-! ### converters.py: `read_wide_format` -/

/-- Tokenisation loop behind `splitTab`: `acc` is the current token read
so far. -/
def splitTabAux : List Char → List Char → List String
  | [], acc => [String.mk acc]
  | c :: cs, acc =>
    if c = '\t' then String.mk acc :: splitTabAux cs []
    else splitTabAux cs (acc ++ [c])

/-- Python `line.split('\t')`. -/
def splitTab (s : String) : List String :=
  splitTabAux s.toList []

/-- One normalised row built from a wide-format genotype cell
(converters.py, lines 194-208): a 2-character cell contributes its two
characters as alleles; any other length makes both alleles the missing
sentinel. -/
def mkWideRow (cfg : Config) (snp_id chromosome position ind_id g : String) : Row :=
  match g.toList with
  | [c1, c2] =>
    { snp_name := snp_id, sample_id := ind_id,
      allele1 := String.singleton c1, allele2 := String.singleton c2,
      chromosome := chromosome, position := position }
  | _ =>
    { snp_name := snp_id, sample_id := ind_id,
      allele1 := cfg.missing_genotype, allele2 := cfg.missing_genotype,
      chromosome := chromosome, position := position }

/-- Result of the wide-format reader: the normalised rows plus the line
numbers for which a skipped-malformed-line warning was logged. -/
structure WideParse where
  rows : List Row
  warn_lines : List Nat
deriving DecidableEq, Inhabited

/-- The data-line loop of `read_wide_format` (converters.py, lines
174-208).  Empty lines are skipped silently; a nonempty line with fewer
than 4 tab-separated columns is skipped with a warning; a line whose
genotype-cell count differs from the header's individual count is a fatal
error naming the line number; otherwise one row per individual is emitted. -/
def readWideLines (cfg : Config) (individuals : List String) :
    List String → Nat → Except ConvErr WideParse
  | [], _ => .ok { rows := [], warn_lines := [] }
  | line :: rest, line_num =>
    if line = "" then readWideLines cfg individuals rest (line_num + 1)
    else
      let parts := splitTab line
      if parts.length < 4 then
        match readWideLines cfg individuals rest (line_num + 1) with
        | .error e => .error e
        | .ok w => .ok { rows := w.rows, warn_lines := line_num :: w.warn_lines }
      else
        let genotypes := parts.drop 3
        if genotypes.length ≠ individuals.length then
          .error (.lineGenoCount line_num individuals.length genotypes.length)
        else
          match readWideLines cfg individuals rest (line_num + 1) with
          | .error e => .error e
          | .ok w =>
            .ok
              { rows :=
                  (individuals.zip genotypes).map (fun p =>
                    mkWideRow cfg (parts.getD 0 "") (parts.getD 1 "")
                      (parts.getD 2 "") p.1 p.2) ++ w.rows
                warn_lines := w.warn_lines }

/-- Embedding of `read_wide_format` (converters.py, lines 141-216) on the
list of newline-stripped input lines: the first line is the header whose
columns from the fourth on are the individual ids; data lines are numbered
from 2. -/
def read_wide_format (cfg : Config) (lines : List String) : Except ConvErr WideParse :=
  let header := splitTab (lines.headD "")
  let individuals := header.drop 3
  if individuals.isEmpty then .error .noIndividuals
  else readWideLines cfg individuals (lines.drop 1) 2

/-! ### Spec-side observation functions for the output matrix -/

/-- The allele characters carried by one matrix cell: none for the
uncalled pair, otherwise the cell's characters without the tab separator. -/
def cellAlleles (c : String) : Finset Char :=
  if c = "0\t0" then ∅ else (c.toList.filter (fun ch => ch ≠ '\t')).toFinset

/-- The allele set of one variant column over all non-uncalled cells. -/
def columnAlleles (m : List (List String)) (j : Nat) : Finset Char :=
  (List.range m.length).toFinset.biUnion (fun i => cellAlleles (cell m i j))

/-! ### Basic list lemmas -/

lemma list_set_of_le {α : Type} {l : List α} {n : Nat} (h : l.length ≤ n) (a : α) :
    l.set n a = l := by
  induction l generalizing n with
  | nil => rfl
  | cons x xs ih =>
    cases n with
    | zero => simp at h
    | succ m => simp only [List.set]; rw [ih (Nat.le_of_succ_le_succ h)]

lemma set_getD_self {α : Type} (l : List α) (i : Nat) (d : α) :
    l.set i (l.getD i d) = l := by
  induction l generalizing i with
  | nil => rfl
  | cons x xs ih =>
    cases i with
    | zero => simp [List.getD]
    | succ m => simp only [List.getD_cons_succ, List.set]; rw [ih]

lemma getD_set_self {α : Type} {l : List α} {i : Nat} (h : i < l.length) (a d : α) :
    (l.set i a).getD i d = a := by
  induction l generalizing i with
  | nil => simp at h
  | cons x xs ih =>
    cases i with
    | zero => simp [List.getD]
    | succ m => simpa [List.set, List.getD_cons_succ] using ih (Nat.lt_of_succ_lt_succ h)

lemma getD_set_other {α : Type} (l : List α) {i j : Nat} (h : i ≠ j) (a d : α) :
    (l.set i a).getD j d = l.getD j d := by
  induction l generalizing i j with
  | nil => rfl
  | cons x xs ih =>
    cases i with
    | zero =>
      cases j with
      | zero => exact absurd rfl h
      | succ m => simp [List.set, List.getD_cons_succ]
    | succ n =>
      cases j with
      | zero => simp [List.set, List.getD]
      | succ m =>
        simp only [List.set, List.getD_cons_succ]
        exact ih (fun hnm => h (by rw [hnm]))

/-! ### Lemmas about `idxOfStr` -/

lemma idxOfStr_lt_length {s : String} {l : List String} (h : s ∈ l) :
    idxOfStr s l < l.length := by
  induction l with
  | nil => simp at h
  | cons x xs ih =>
    by_cases hx : x = s
    · simp [idxOfStr, hx]
    · rcases List.mem_cons.mp h with h1 | h2
      · exact absurd h1.symm hx
      · simpa [idxOfStr, hx] using ih h2

lemma getD_idxOfStr {s : String} {l : List String} (h : s ∈ l) (d : String) :
    l.getD (idxOfStr s l) d = s := by
  induction l with
  | nil => simp at h
  | cons x xs ih =>
    by_cases hx : x = s
    · simp [idxOfStr, hx, List.getD]
    · rcases List.mem_cons.mp h with h1 | h2
      · exact absurd h1.symm hx
      · simpa [idxOfStr, hx, List.getD_cons_succ] using ih h2

lemma idxOfStr_of_getD {l : List String} {i : Nat} (hn : l.Nodup) (hi : i < l.length) :
    idxOfStr (l.getD i "") l = i := by
  induction l generalizing i with
  | nil => simp at hi
  | cons x xs ih =>
    cases i with
    | zero => simp [idxOfStr, List.getD]
    | succ m =>
      have hm : m < xs.length := Nat.lt_of_succ_lt_succ hi
      have hmem : xs.getD m "" ∈ xs := by
        rw [List.getD_eq_getElem _ _ hm]
        exact List.getElem_mem hm
      have hx : x ≠ xs.getD m "" := by
        intro heq
        exact (List.nodup_cons.mp hn).1 (heq ▸ hmem)
      simp only [List.getD_cons_succ, idxOfStr, if_neg (fun h => hx h)]
      rw [ih (List.nodup_cons.mp hn).2 hm]

/-! ### Lemmas about first-occurrence deduplication -/

section DropDups

variable {α β : Type} [DecidableEq β] {key : α → β}

lemma mem_of_mem_dropDupsByAux {a : α} :
    ∀ {l : List α} {seen : List β}, a ∈ dropDupsByAux key l seen → a ∈ l := by
  intro l
  induction l with
  | nil => intro seen h; simp [dropDupsByAux] at h
  | cons x xs ih =>
    intro seen h
    simp only [dropDupsByAux] at h
    by_cases hx : key x ∈ seen
    · rw [if_pos hx] at h
      exact List.mem_cons_of_mem _ (ih h)
    · rw [if_neg hx] at h
      rcases List.mem_cons.mp h with h1 | h2
      · exact h1 ▸ List.mem_cons_self _ _
      · exact List.mem_cons_of_mem _ (ih h2)

lemma key_not_seen_of_mem_dropDupsByAux {a : α} :
    ∀ {l : List α} {seen : List β}, a ∈ dropDupsByAux key l seen → key a ∉ seen := by
  intro l
  induction l with
  | nil => intro seen h; simp [dropDupsByAux] at h
  | cons x xs ih =>
    intro seen h
    simp only [dropDupsByAux] at h
    by_cases hx : key x ∈ seen
    · rw [if_pos hx] at h
      exact ih h
    · rw [if_neg hx] at h
      rcases List.mem_cons.mp h with h1 | h2
      · exact h1 ▸ hx
      · intro hs
        exact ih h2 (List.mem_cons_of_mem _ hs)

lemma exists_mem_dropDupsByAux {a : α} :
    ∀ {l : List α} {seen : List β}, a ∈ l → key a ∉ seen →
      ∃ b ∈ dropDupsByAux key l seen, key b = key a := by
  intro l
  induction l with
  | nil => intro seen h; simp at h
  | cons x xs ih =>
    intro seen h hs
    simp only [dropDupsByAux]
    by_cases hx : key x ∈ seen
    · rw [if_pos hx]
      rcases List.mem_cons.mp h with h1 | h2
      · exact absurd (h1 ▸ hx) hs
      · exact ih h2 hs
    · rw [if_neg hx]
      rcases List.mem_cons.mp h with h1 | h2
      · exact ⟨x, List.mem_cons_self _ _, by rw [h1]⟩
      · by_cases hk : key a = key x
        · exact ⟨x, List.mem_cons_self _ _, hk.symm⟩
        · have : key a ∉ key x :: seen := by
            intro hmem
            rcases List.mem_cons.mp hmem with h3 | h4
            · exact hk h3
            · exact hs h4
          obtain ⟨b, hb, hkb⟩ := ih h2 this
          exact ⟨b, List.mem_cons_of_mem _ hb, hkb⟩

lemma nodup_map_key_dropDupsByAux :
    ∀ (l : List α) (seen : List β), ((dropDupsByAux key l seen).map key).Nodup := by
  intro l
  induction l with
  | nil => intro seen; simp [dropDupsByAux]
  | cons x xs ih =>
    intro seen
    simp only [dropDupsByAux]
    by_cases hx : key x ∈ seen
    · rw [if_pos hx]; exact ih seen
    · rw [if_neg hx]
      simp only [List.map_cons, List.nodup_cons]
      refine ⟨?_, ih (key x :: seen)⟩
      intro hmem
      obtain ⟨b, hb, hkb⟩ := List.mem_map.mp hmem
      exact key_not_seen_of_mem_dropDupsByAux hb (hkb ▸ List.mem_cons_self _ _)

lemma find_dropDupsByAux {b : α} :
    ∀ {l : List α} {seen : List β}, b ∈ dropDupsByAux key l seen →
      l.find? (fun y => key y == key b) = some b := by
  intro l
  induction l with
  | nil => intro seen h; simp [dropDupsByAux] at h
  | cons x xs ih =>
    intro seen h
    simp only [dropDupsByAux] at h
    by_cases hx : key x ∈ seen
    · rw [if_pos hx] at h
      have hne : key x ≠ key b := by
        intro heq
        exact key_not_seen_of_mem_dropDupsByAux h (heq ▸ hx)
      rw [List.find?_cons_of_neg _ (by simpa using hne)]
      exact ih h
    · rw [if_neg hx] at h
      rcases List.mem_cons.mp h with h1 | h2
      · subst h1
        rw [List.find?_cons_of_pos _ (by simp)]
      · have hne : key x ≠ key b := by
          intro heq
          exact key_not_seen_of_mem_dropDupsByAux h2 (heq ▸ List.mem_cons_self _ _)
        rw [List.find?_cons_of_neg _ (by simpa using hne)]
        exact ih h2

lemma pairwise_idx_dropDupsByAux {α : Type} (key : α → String) :
    ∀ (l : List α) (seen : List String),
      List.Pairwise (fun a b => idxOfStr (key a) (l.map key) < idxOfStr (key b) (l.map key))
        (dropDupsByAux key l seen) := by
  intro l
  induction l with
  | nil => intro seen; simp [dropDupsByAux]
  | cons x xs ih =>
    intro seen
    simp only [dropDupsByAux]
    have shift : ∀ c : α, c ∈ dropDupsByAux key xs (key x :: seen) ∨
        (key x ∈ seen ∧ c ∈ dropDupsByAux key xs seen) →
        idxOfStr (key c) ((x :: xs).map key) = idxOfStr (key c) (xs.map key) + 1 := by
      intro c hc
      have hne : key x ≠ key c := by
        rcases hc with h1 | ⟨hxs, h2⟩
        · intro heq
          exact key_not_seen_of_mem_dropDupsByAux h1 (heq ▸ List.mem_cons_self _ _)
        · intro heq
          exact key_not_seen_of_mem_dropDupsByAux h2 (heq ▸ hxs)
      simp [idxOfStr, hne]
    by_cases hx : key x ∈ seen
    · rw [if_pos hx]
      refine (ih seen).imp_of_mem ?_
      intro a b ha hb hab
      rw [shift a (Or.inr ⟨hx, ha⟩), shift b (Or.inr ⟨hx, hb⟩)]
      exact Nat.succ_lt_succ hab
    · rw [if_neg hx]
      refine List.Pairwise.cons ?_ ?_
      · intro b hb
        rw [shift b (Or.inl hb)]
        simp [idxOfStr]
      · refine (ih (key x :: seen)).imp_of_mem ?_
        intro a b ha hb hab
        rw [shift a (Or.inl ha), shift b (Or.inl hb)]
        exact Nat.succ_lt_succ hab

end DropDups

/-! ### Lemmas about allele collection and sorting -/

lemma mem_charsOf {c : Char} : ∀ {gs : List String}, c ∈ charsOf gs ↔ ∃ g ∈ gs, c ∈ g.toList := by
  intro gs
  induction gs with
  | nil => simp [charsOf]
  | cons g rest ih =>
    simp only [charsOf, List.mem_append, ih, List.mem_cons]
    constructor
    · rintro (h1 | ⟨g2, hg2, hc⟩)
      · exact ⟨g, Or.inl rfl, h1⟩
      · exact ⟨g2, Or.inr hg2, hc⟩
    · rintro ⟨g2, hg2 | hg2, hc⟩
      · exact Or.inl (hg2 ▸ hc)
      · exact Or.inr ⟨g2, hg2, hc⟩

lemma mem_allelesOf {c : Char} {genotypes : List String} {missing : String} :
    c ∈ allelesOf genotypes missing ↔ ∃ g ∈ genotypes, g ≠ missing ∧ c ∈ g.toList := by
  simp only [allelesOf, List.mem_toFinset, mem_charsOf, List.mem_filter, bne_iff_ne]
  constructor
  · rintro ⟨g, ⟨hg, hne⟩, hc⟩
    exact ⟨g, hg, hne, hc⟩
  · rintro ⟨g, hg, hne, hc⟩
    exact ⟨g, ⟨hg, hne⟩, hc⟩

lemma mem_insertChar {c d : Char} : ∀ {l : List Char}, d ∈ insertChar c l ↔ d = c ∨ d ∈ l := by
  intro l
  induction l with
  | nil => simp [insertChar]
  | cons x xs ih =>
    simp only [insertChar]
    by_cases h : c ≤ x
    · simp [h]
    · simp only [if_neg h, List.mem_cons, ih]
      tauto

lemma mem_sortChars {c : Char} : ∀ {l : List Char}, c ∈ sortChars l ↔ c ∈ l := by
  intro l
  induction l with
  | nil => simp [sortChars]
  | cons x xs ih => simp [sortChars, mem_insertChar, ih]

lemma sorted_insertChar {c : Char} :
    ∀ {l : List Char}, l.Sorted (· ≤ ·) → (insertChar c l).Sorted (· ≤ ·) := by
  intro l
  induction l with
  | nil => intro _; simp [insertChar]
  | cons x xs ih =>
    intro hs
    rw [List.sorted_cons] at hs
    simp only [insertChar]
    by_cases h : c ≤ x
    · rw [if_pos h, List.sorted_cons]
      refine ⟨?_, by rw [List.sorted_cons]; exact hs⟩
      intro b hb
      rcases List.mem_cons.mp hb with h1 | h2
      · exact h1 ▸ h
      · exact le_trans h (hs.1 b h2)
    · rw [if_neg h, List.sorted_cons]
      refine ⟨?_, ih hs.2⟩
      intro b hb
      rcases mem_insertChar.mp hb with h1 | h2
      · exact h1 ▸ le_of_lt (lt_of_not_le h)
      · exact hs.1 b h2

lemma sorted_sortChars : ∀ (l : List Char), (sortChars l).Sorted (· ≤ ·) := by
  intro l
  induction l with
  | nil => simp [sortChars]
  | cons x xs ih => exact sorted_insertChar ih

lemma nodup_insertChar {c : Char} :
    ∀ {l : List Char}, l.Nodup → c ∉ l → (insertChar c l).Nodup := by
  intro l
  induction l with
  | nil => intro _ _; simp [insertChar]
  | cons x xs ih =>
    intro hn hc
    rw [List.nodup_cons] at hn
    simp only [insertChar]
    by_cases h : c ≤ x
    · rw [if_pos h, List.nodup_cons, List.nodup_cons]
      exact ⟨hc, hn.1, hn.2⟩
    · rw [if_neg h, List.nodup_cons]
      constructor
      · intro hmem
        rcases mem_insertChar.mp hmem with h1 | h2
        · exact hc (h1.symm ▸ List.mem_cons_self _ _)
        · exact hn.1 h2
      · exact ih hn.2 (fun hm => hc (List.mem_cons_of_mem _ hm))

lemma nodup_sortChars : ∀ {l : List Char}, l.Nodup → (sortChars l).Nodup := by
  intro l
  induction l with
  | nil => intro _; simp [sortChars]
  | cons x xs ih =>
    intro hn
    rw [List.nodup_cons] at hn
    exact nodup_insertChar (ih hn.2) (fun hm => hn.1 (mem_sortChars.mp hm))

lemma nodup_distinctAlleles (genotypes : List String) (missing : String) :
    (distinctAlleles genotypes missing).Nodup := by
  have := @nodup_map_key_dropDupsByAux Char Char _ (fun c : Char => c)
    (charsOf (genotypes.filter (fun g => g != missing))) []
  simpa [List.map_id] using this

lemma mem_distinctAlleles {c : Char} {genotypes : List String} {missing : String} :
    c ∈ distinctAlleles genotypes missing ↔ c ∈ allelesOf genotypes missing := by
  unfold distinctAlleles allelesOf dropDupsBy
  rw [List.mem_toFinset]
  constructor
  · intro h
    exact mem_of_mem_dropDupsByAux h
  · intro h
    obtain ⟨b, hb, hkb⟩ :=
      @exists_mem_dropDupsByAux Char Char _ (fun c : Char => c) c
        (charsOf (genotypes.filter (fun g => g != missing))) [] h (by simp)
    exact hkb ▸ hb

lemma mem_sortedAllelesOf {c : Char} {genotypes : List String} {missing : String} :
    c ∈ sortedAllelesOf genotypes missing ↔ c ∈ allelesOf genotypes missing := by
  unfold sortedAllelesOf
  rw [mem_sortChars, mem_distinctAlleles]

lemma toFinset_sortedAllelesOf (genotypes : List String) (missing : String) :
    (sortedAllelesOf genotypes missing).toFinset = allelesOf genotypes missing := by
  ext c
  rw [List.mem_toFinset, mem_sortedAllelesOf]

lemma length_sortedAllelesOf (genotypes : List String) (missing : String) :
    (sortedAllelesOf genotypes missing).length = (allelesOf genotypes missing).card := by
  have hnd : (sortedAllelesOf genotypes missing).Nodup :=
    nodup_sortChars (nodup_distinctAlleles genotypes missing)
  rw [← toFinset_sortedAllelesOf genotypes missing, List.toFinset_card_of_nodup hnd]

/-! ### Lemmas about the matrix-fill step -/

/-- The condition under which `fillCell` succeeds: the genotype is treated
as missing, or it has exactly two characters. -/
def fillCellOk (missing g : String) : Prop :=
  (g = missing ++ missing ∨ strHasSub missing g = true) ∨ g.toList.length = 2

instance (missing g : String) : Decidable (fillCellOk missing g) := by
  unfold fillCellOk
  infer_instance

lemma fillCell_ok_cases {missing g snp_id sample_id c : String}
    (h : fillCell missing g snp_id sample_id = .ok c) :
    c = "0\t0" ∨
      ∃ a b, g.toList = [a, b] ∧ c = renderPair a b ∧ g ≠ missing ++ missing ∧
        strHasSub missing g = false := by
  unfold fillCell at h
  by_cases hm : g = missing ++ missing ∨ strHasSub missing g = true
  · rw [if_pos hm] at h
    exact Or.inl (Except.ok.inj h).symm
  · rw [if_neg hm] at h
    push_neg at hm
    match hg : g.toList with
    | [a, b] =>
      rw [hg] at h
      exact Or.inr ⟨a, b, rfl, (Except.ok.inj h).symm, hm.1,
        by simpa using hm.2⟩
    | [] => rw [hg] at h; exact absurd h (by simp)
    | [a] => rw [hg] at h; exact absurd h (by simp)
    | a :: b :: x :: rest => rw [hg] at h; exact absurd h (by simp)

lemma fillCell_isOk_iff {missing g snp_id sample_id : String} :
    (∃ c, fillCell missing g snp_id sample_id = .ok c) ↔ fillCellOk missing g := by
  unfold fillCell fillCellOk
  by_cases hm : g = missing ++ missing ∨ strHasSub missing g = true
  · simp [hm]
  · rw [if_neg hm]
    match hg : g.toList with
    | [a, b] => simp [hg]
    | [] => simp [hg, hm]
    | [a] => simp [hg, hm]
    | a :: b :: x :: rest => simp [hg, hm]

/-! ### Lemmas about the genotype matrix -/

/-- Matrix dimensions: `N` rows of width `W`. -/
def dims (N W : Nat) (m : List (List String)) : Prop :=
  m.length = N ∧ ∀ row ∈ m, row.length = W

lemma getD_replicate {α : Type} (d a : α) :
    ∀ (n i : Nat), (List.replicate n a).getD i d = if i < n then a else d := by
  intro n
  induction n with
  | zero => intro i; simp
  | succ k ih =>
    intro i
    cases i with
    | zero => simp [List.replicate, List.getD]
    | succ i2 =>
      simp only [List.replicate, List.getD_cons_succ, ih i2]
      by_cases h : i2 < k
      · rw [if_pos h, if_pos (Nat.succ_lt_succ h)]
      · rw [if_neg h, if_neg (fun hs => h (Nat.lt_of_succ_lt_succ hs))]

lemma dims_initMatrix (N W : Nat) : dims N W (initMatrix N W) := by
  refine ⟨by simp [initMatrix], ?_⟩
  intro row hrow
  rw [List.eq_of_mem_replicate hrow]
  simp

lemma cell_initMatrix (N W i j : Nat) : cell (initMatrix N W) i j = "0\t0" := by
  unfold cell initMatrix
  rw [getD_replicate]
  by_cases h : i < N
  · rw [if_pos h, getD_replicate]
    by_cases h2 : j < W
    · rw [if_pos h2]
    · rw [if_neg h2]
  · rw [if_neg h]
    simp [List.getD]

lemma getD_row_of_dims {N W : Nat} {m : List (List String)} (h : dims N W m)
    {i : Nat} (hi : i < N) : (m.getD i []).length = W := by
  have hlen : i < m.length := by rw [h.1]; exact hi
  rw [List.getD_eq_getElem _ _ hlen]
  exact h.2 _ (List.getElem_mem hlen)

lemma dims_setCell {N W : Nat} {m : List (List String)} {i j : Nat} {v : String}
    (h : dims N W m) : dims N W (setCell m i j v) := by
  by_cases hi : i < m.length
  · refine ⟨by simp [setCell, h.1], ?_⟩
    intro row hrow
    rcases List.mem_or_eq_of_mem_set hrow with hmem | heq
    · exact h.2 row hmem
    · rw [heq, List.length_set]
      rw [List.getD_eq_getElem _ _ hi]
      exact h.2 _ (List.getElem_mem hi)
  · unfold setCell
    rw [list_set_of_le (Nat.le_of_not_lt hi)]
    exact h

lemma setCell_oob {m : List (List String)} {i j : Nat}
    (h : m.length ≤ i ∨ (m.getD i []).length ≤ j) (v : String) :
    setCell m i j v = m := by
  rcases h with h1 | h2
  · unfold setCell
    exact list_set_of_le h1 _
  · unfold setCell
    rw [list_set_of_le h2, set_getD_self]

lemma cell_setCell_same {m : List (List String)} {i j : Nat}
    (hi : i < m.length) (hj : j < (m.getD i []).length) (v : String) :
    cell (setCell m i j v) i j = v := by
  unfold cell setCell
  rw [getD_set_self hi, getD_set_self hj]

lemma cell_setCell_other {m : List (List String)} {i j i2 j2 : Nat}
    (h : i2 ≠ i ∨ j2 ≠ j) (v : String) :
    cell (setCell m i j v) i2 j2 = cell m i2 j2 := by
  rcases h with h1 | h2
  · unfold cell setCell
    rw [getD_set_other _ (fun he => h1 he.symm)]
  · by_cases hi : i2 = i
    · subst hi
      by_cases hrange : i2 < m.length
      · unfold cell setCell
        rw [getD_set_self hrange, getD_set_other _ (fun he => h2 he.symm)]
      · unfold cell setCell
        rw [list_set_of_le (Nat.le_of_not_lt hrange)]
    · unfold cell setCell
      rw [getD_set_other _ (fun he => hi he.symm)]

lemma fillPairs_dims {missing snp_id : String} {inds : List String} {snpIdx N W : Nat} :
    ∀ {pairs : List (String × String)} {m m2 : List (List String)},
      fillPairs missing snp_id inds snpIdx pairs m = .ok m2 → dims N W m → dims N W m2 := by
  intro pairs
  induction pairs with
  | nil =>
    intro m m2 h hd
    simp only [fillPairs] at h
    exact (Except.ok.inj h) ▸ hd
  | cons p rest ih =>
    intro m m2 h hd
    obtain ⟨sid, g⟩ := p
    simp only [fillPairs] at h
    cases hfc : fillCell missing g snp_id sid with
    | error e => rw [hfc] at h; exact absurd h (by simp)
    | ok v =>
      rw [hfc] at h
      exact ih h (dims_setCell hd)

lemma fillPairs_cell {missing snp_id : String} {inds : List String} {snpIdx : Nat} :
    ∀ {pairs : List (String × String)} {m m2 : List (List String)},
      fillPairs missing snp_id inds snpIdx pairs m = .ok m2 →
      ∀ i j, cell m2 i j = cell m i j ∨
        (j = snpIdx ∧ ∃ p ∈ pairs, idxOfStr p.1 inds = i ∧
          fillCell missing p.2 snp_id p.1 = .ok (cell m2 i j)) := by
  intro pairs
  induction pairs with
  | nil =>
    intro m m2 h i j
    simp only [fillPairs] at h
    exact Or.inl ((Except.ok.inj h) ▸ rfl)
  | cons p rest ih =>
    intro m m2 h i j
    obtain ⟨sid, g⟩ := p
    simp only [fillPairs] at h
    cases hfc : fillCell missing g snp_id sid with
    | error e => rw [hfc] at h; exact absurd h (by simp)
    | ok v =>
      rw [hfc] at h
      rcases ih h i j with hsame | ⟨hj, p2, hp2, hidx, hfc2⟩
      · rw [hsame]
        by_cases hij : i = idxOfStr sid inds ∧ j = snpIdx
        · obtain ⟨hi, hj⟩ := hij
          by_cases hrange : idxOfStr sid inds < m.length ∧
              snpIdx < (m.getD (idxOfStr sid inds) []).length
          · refine Or.inr ⟨hj, (sid, g), List.mem_cons_self _ _, hi.symm, ?_⟩
            rw [hi, hj, cell_setCell_same hrange.1 hrange.2]
            exact hfc
          · rw [setCell_oob (by omega) v]
            exact Or.inl rfl
        · rw [cell_setCell_other (by tauto) v]
          exact Or.inl rfl
      · exact Or.inr ⟨hj, p2, List.mem_cons_of_mem _ hp2, hidx, hfc2⟩

lemma fillPairs_isOk {missing snp_id : String} {inds : List String} {snpIdx : Nat} :
    ∀ {pairs : List (String × String)} (m : List (List String)),
      (∀ p ∈ pairs, fillCellOk missing p.2) →
      ∃ m2, fillPairs missing snp_id inds snpIdx pairs m = .ok m2 := by
  intro pairs
  induction pairs with
  | nil => intro m _; exact ⟨m, rfl⟩
  | cons p rest ih =>
    intro m hok
    obtain ⟨sid, g⟩ := p
    have h1 : fillCellOk missing g := hok (sid, g) (List.mem_cons_self _ _)
    obtain ⟨c, hc⟩ := (@fillCell_isOk_iff missing g snp_id sid).mpr h1
    obtain ⟨m2, hm2⟩ := ih (setCell m (idxOfStr sid inds) snpIdx c)
      (fun p hp => hok p (List.mem_cons_of_mem _ hp))
    refine ⟨m2, ?_⟩
    simp only [fillPairs]
    rw [hc]
    exact hm2

lemma getLast?_cons_of_ne_nil {α : Type} {l : List α} (h : l ≠ []) (a : α) :
    (a :: l).getLast? = l.getLast? := by
  cases l with
  | nil => exact absurd rfl h
  | cons b t => exact List.getLast?_cons_cons

lemma fillPairs_last {missing snp_id : String} {inds : List String} {snpIdx N W : Nat}
    {i : Nat} :
    ∀ {pairs : List (String × String)} {m m2 : List (List String)},
      fillPairs missing snp_id inds snpIdx pairs m = .ok m2 →
      dims N W m → i < N → snpIdx < W →
      ((pairs.filter (fun q => idxOfStr q.1 inds == i)) = [] →
        cell m2 i snpIdx = cell m i snpIdx) ∧
      (∀ p, (pairs.filter (fun q => idxOfStr q.1 inds == i)).getLast? = some p →
        fillCell missing p.2 snp_id p.1 = .ok (cell m2 i snpIdx)) := by
  intro pairs
  induction pairs with
  | nil =>
    intro m m2 h hd hi hjw
    simp only [fillPairs] at h
    refine ⟨fun _ => (Except.ok.inj h) ▸ rfl, fun p hp => by simp at hp⟩
  | cons q rest ih =>
    intro m m2 h hd hi hjw
    obtain ⟨sid, g⟩ := q
    simp only [fillPairs] at h
    cases hfc : fillCell missing g snp_id sid with
    | error e => rw [hfc] at h; exact absurd h (by simp)
    | ok v =>
      rw [hfc] at h
      have hd1 : dims N W (setCell m (idxOfStr sid inds) snpIdx v) := dims_setCell hd
      have ihm := ih h hd1 hi hjw
      by_cases hmatch : idxOfStr sid inds = i
      · subst hmatch
        have hfilter : ((sid, g) :: rest).filter
              (fun q => idxOfStr q.1 inds == idxOfStr sid inds) =
            (sid, g) :: rest.filter (fun q => idxOfStr q.1 inds == idxOfStr sid inds) := by
          simp [List.filter_cons]
        rw [hfilter]
        refine ⟨fun hfe => absurd hfe (by simp), ?_⟩
        intro p hp
        by_cases hre : rest.filter (fun q => idxOfStr q.1 inds == idxOfStr sid inds) = []
        · rw [hre] at hp
          have hpv : (sid, g) = p := by
            simpa using hp
          obtain rfl := hpv.symm
          have hcell : cell m2 (idxOfStr sid inds) snpIdx = v := by
            rw [ihm.1 hre]
            exact cell_setCell_same (by rw [hd.1]; exact hi)
              (by rw [getD_row_of_dims hd hi]; exact hjw) v
          rw [hcell]
          exact hfc
        · rw [getLast?_cons_of_ne_nil hre] at hp
          exact ihm.2 p hp
      · have hfilter : ((sid, g) :: rest).filter (fun q => idxOfStr q.1 inds == i) =
            rest.filter (fun q => idxOfStr q.1 inds == i) := by
          simp [List.filter_cons, hmatch]
        rw [hfilter]
        refine ⟨?_, ihm.2⟩
        intro hfe
        rw [ihm.1 hfe, cell_setCell_other (Or.inl (fun he => hmatch he.symm)) v]

/-! ### Lemmas about the per-SNP processing loop -/

lemma length_check_genotype_count (gs : List String) (missing snp_id : String)
    (mc : Int) : (check_genotype_count gs missing snp_id mc).length = gs.length := by
  unfold check_genotype_count
  by_cases h : mc ≤ 0
  · rw [if_pos h]
  · rw [if_neg h, List.length_map]

lemma validate_biallelic_ok_iff {gs : List String} {missing snp_id : String}
    {ln : Nat} :
    validate_biallelic gs missing snp_id ln = .ok () ↔ (allelesOf gs missing).card ≤ 2 := by
  unfold validate_biallelic
  by_cases h : 2 < (allelesOf gs missing).card
  · rw [if_pos h]
    constructor
    · intro hc
      exact absurd hc (by simp)
    · intro hc
      omega
  · rw [if_neg h]
    exact ⟨fun _ => by omega, fun _ => rfl⟩

lemma validate_biallelic_err {gs : List String} {missing snp_id : String} {ln : Nat}
    (h : 2 < (allelesOf gs missing).card) :
    validate_biallelic gs missing snp_id ln =
      .error (.biallelic snp_id ln (sortedAllelesOf gs missing)) := by
  unfold validate_biallelic
  rw [if_pos h]

section ProcessSnps

variable {cfg : Config} {rows : List Row} {inds : List String} {N W : Nat}

lemma processSnps_dims :
    ∀ {snps : List String} {idx : Nat} {m m2 : List (List String)},
      processSnps cfg rows inds snps idx m = .ok m2 → dims N W m → dims N W m2 := by
  intro snps
  induction snps with
  | nil =>
    intro idx m m2 h hd
    simp only [processSnps] at h
    exact (Except.ok.inj h) ▸ hd
  | cons s rest ih =>
    intro idx m m2 h hd
    simp only [processSnps] at h
    cases hv : validate_biallelic (genosOf cfg rows s)
        (cfg.missing_genotype ++ cfg.missing_genotype) s (idx + 1) with
    | error e => rw [hv] at h; exact absurd h (by simp)
    | ok u =>
      rw [hv] at h
      cases hf : fillPairs cfg.missing_genotype s inds idx
          ((groupSamples rows s).zip (genosOf cfg rows s)) m with
      | error e => rw [hf] at h; exact absurd h (by simp)
      | ok m1 =>
        rw [hf] at h
        exact ih h (fillPairs_dims hf hd)

lemma processSnps_validated :
    ∀ {snps : List String} {idx : Nat} {m m2 : List (List String)},
      processSnps cfg rows inds snps idx m = .ok m2 →
      ∀ k, k < snps.length →
        (allelesOf (genosOf cfg rows (snps.getD k ""))
          (cfg.missing_genotype ++ cfg.missing_genotype)).card ≤ 2 := by
  intro snps
  induction snps with
  | nil => intro idx m m2 _ k hk; simp at hk
  | cons s rest ih =>
    intro idx m m2 h k hk
    simp only [processSnps] at h
    cases hv : validate_biallelic (genosOf cfg rows s)
        (cfg.missing_genotype ++ cfg.missing_genotype) s (idx + 1) with
    | error e => rw [hv] at h; exact absurd h (by simp)
    | ok u =>
      rw [hv] at h
      cases hf : fillPairs cfg.missing_genotype s inds idx
          ((groupSamples rows s).zip (genosOf cfg rows s)) m with
      | error e => rw [hf] at h; exact absurd h (by simp)
      | ok m1 =>
        rw [hf] at h
        cases k with
        | zero =>
          obtain ⟨⟩ := u
          exact validate_biallelic_ok_iff.mp hv
        | succ k2 =>
          exact ih h k2 (Nat.lt_of_succ_lt_succ hk)

lemma processSnps_cell :
    ∀ {snps : List String} {idx : Nat} {m m2 : List (List String)},
      processSnps cfg rows inds snps idx m = .ok m2 →
      ∀ i j, cell m2 i j = cell m i j ∨
        ∃ k, k < snps.length ∧ j = idx + k ∧
          ∃ p ∈ (groupSamples rows (snps.getD k "")).zip
              (genosOf cfg rows (snps.getD k "")),
            idxOfStr p.1 inds = i ∧
            fillCell cfg.missing_genotype p.2 (snps.getD k "") p.1 = .ok (cell m2 i j) := by
  intro snps
  induction snps with
  | nil =>
    intro idx m m2 h i j
    simp only [processSnps] at h
    exact Or.inl ((Except.ok.inj h) ▸ rfl)
  | cons s rest ih =>
    intro idx m m2 h i j
    simp only [processSnps] at h
    cases hv : validate_biallelic (genosOf cfg rows s)
        (cfg.missing_genotype ++ cfg.missing_genotype) s (idx + 1) with
    | error e => rw [hv] at h; exact absurd h (by simp)
    | ok u =>
      rw [hv] at h
      cases hf : fillPairs cfg.missing_genotype s inds idx
          ((groupSamples rows s).zip (genosOf cfg rows s)) m with
      | error e => rw [hf] at h; exact absurd h (by simp)
      | ok m1 =>
        rw [hf] at h
        rcases ih h i j with hsame | ⟨k2, hk2, hjk, p, hp, hidx, hfc⟩
        · rw [hsame]
          rcases fillPairs_cell hf i j with h1 | ⟨hj, p, hp, hidx, hfc⟩
          · exact Or.inl h1
          · refine Or.inr ⟨0, Nat.succ_pos _, by omega, p, ?_, hidx, ?_⟩
            · simpa using hp
            · simpa using hsame ▸ hfc
        · refine Or.inr ⟨k2 + 1, Nat.succ_lt_succ hk2, by omega, p, ?_, hidx, ?_⟩
          · simpa using hp
          · simpa using hfc

lemma processSnps_not_ok_of_offender :
    ∀ {snps : List String} {idx : Nat} {m : List (List String)},
      (∃ k, k < snps.length ∧
        2 < (allelesOf (genosOf cfg rows (snps.getD k ""))
          (cfg.missing_genotype ++ cfg.missing_genotype)).card) →
      ∀ m2, processSnps cfg rows inds snps idx m ≠ .ok m2 := by
  intro snps
  induction snps with
  | nil =>
    intro idx m hoff m2
    obtain ⟨k, hk, _⟩ := hoff
    simp at hk
  | cons s rest ih =>
    intro idx m hoff m2 h
    simp only [processSnps] at h
    obtain ⟨k, hk, hcard⟩ := hoff
    cases hv : validate_biallelic (genosOf cfg rows s)
        (cfg.missing_genotype ++ cfg.missing_genotype) s (idx + 1) with
    | error e => rw [hv] at h; exact absurd h (by simp)
    | ok u =>
      rw [hv] at h
      cases k with
      | zero =>
        have := validate_biallelic_ok_iff.mp (by obtain ⟨⟩ := u; exact hv)
        simp only [List.getD_cons_zero] at hcard
        omega
      | succ k2 =>
        cases hf : fillPairs cfg.missing_genotype s inds idx
            ((groupSamples rows s).zip (genosOf cfg rows s)) m with
        | error e => rw [hf] at h; exact absurd h (by simp)
        | ok m1 =>
          rw [hf] at h
          exact ih ⟨k2, Nat.lt_of_succ_lt_succ hk, by simpa using hcard⟩ m2 h

lemma processSnps_err_first :
    ∀ {snps : List String} {idx : Nat} {m : List (List String)} {k : Nat},
      k < snps.length →
      2 < (allelesOf (genosOf cfg rows (snps.getD k ""))
        (cfg.missing_genotype ++ cfg.missing_genotype)).card →
      (∀ k2, k2 < k → (allelesOf (genosOf cfg rows (snps.getD k2 ""))
        (cfg.missing_genotype ++ cfg.missing_genotype)).card ≤ 2) →
      (∀ k2, k2 < k → ∀ g ∈ genosOf cfg rows (snps.getD k2 ""),
        fillCellOk cfg.missing_genotype g) →
      processSnps cfg rows inds snps idx m =
        .error (.biallelic (snps.getD k "") (idx + k + 1)
          (sortedAllelesOf (genosOf cfg rows (snps.getD k ""))
            (cfg.missing_genotype ++ cfg.missing_genotype))) := by
  intro snps
  induction snps with
  | nil => intro idx m k hk; simp at hk
  | cons s rest ih =>
    intro idx m k hk hcard hprev hfill
    simp only [processSnps]
    cases k with
    | zero =>
      simp only [List.getD_cons_zero] at hcard ⊢
      rw [validate_biallelic_err hcard]
    | succ k2 =>
      have hv : validate_biallelic (genosOf cfg rows s)
          (cfg.missing_genotype ++ cfg.missing_genotype) s (idx + 1) = .ok () := by
        rw [validate_biallelic_ok_iff]
        simpa using hprev 0 (Nat.succ_pos _)
      rw [hv]
      have hok : ∀ p ∈ (groupSamples rows s).zip (genosOf cfg rows s),
          fillCellOk cfg.missing_genotype p.2 := by
        intro p hp
        have hp2 : p.2 ∈ genosOf cfg rows s := (List.of_mem_zip hp).2
        have := hfill 0 (Nat.succ_pos _)
        simpa using this p.2 (by simpa using hp2)
      obtain ⟨m1, hm1⟩ := @fillPairs_isOk cfg.missing_genotype s inds idx
        ((groupSamples rows s).zip (genosOf cfg rows s)) m hok
      rw [hm1]
      have hrest := @ih (idx + 1) m1 k2 (Nat.lt_of_succ_lt_succ hk)
        (by simpa using hcard)
        (fun k3 hk3 => by simpa using hprev (k3 + 1) (Nat.succ_lt_succ hk3))
        (fun k3 hk3 => by simpa using hfill (k3 + 1) (Nat.succ_lt_succ hk3))
      show processSnps cfg rows inds rest (idx + 1) m1 = _
      rw [hrest]
      simp only [List.getD_cons_succ]
      have harith : idx + 1 + k2 + 1 = idx + (k2 + 1) + 1 := by omega
      rw [harith]

lemma processSnps_last :
    ∀ {snps : List String} {idx : Nat} {m m2 : List (List String)},
      processSnps cfg rows inds snps idx m = .ok m2 → dims N W m →
      ∀ {i k : Nat}, i < N → k < snps.length → idx + k < W →
      ∀ p, (((groupSamples rows (snps.getD k "")).zip
            (genosOf cfg rows (snps.getD k ""))).filter
          (fun q => idxOfStr q.1 inds == i)).getLast? = some p →
        fillCell cfg.missing_genotype p.2 (snps.getD k "") p.1 =
          .ok (cell m2 i (idx + k)) := by
  intro snps
  induction snps with
  | nil => intro idx m m2 _ _ i k _ hk; simp at hk
  | cons s rest ih =>
    intro idx m m2 h hd i k hi hk hw p hp
    simp only [processSnps] at h
    cases hv : validate_biallelic (genosOf cfg rows s)
        (cfg.missing_genotype ++ cfg.missing_genotype) s (idx + 1) with
    | error e => rw [hv] at h; exact absurd h (by simp)
    | ok u =>
      rw [hv] at h
      cases hf : fillPairs cfg.missing_genotype s inds idx
          ((groupSamples rows s).zip (genosOf cfg rows s)) m with
      | error e => rw [hf] at h; exact absurd h (by simp)
      | ok m1 =>
        rw [hf] at h
        cases k with
        | zero =>
          simp only [List.getD_cons_zero] at hp ⊢
          have hlast := (fillPairs_last hf hd hi (by simpa using hw)).2 p hp
          have hpreserve : cell m2 i (idx + 0) = cell m1 i (idx + 0) := by
            rcases processSnps_cell h i (idx + 0) with h1 | ⟨k2, _, hjk, _⟩
            · exact h1
            · omega
          rw [hpreserve]
          simpa using hlast
        | succ k2 =>
          have hd1 : dims N W m1 := fillPairs_dims hf hd
          have hres := ih h hd1 hi (Nat.lt_of_succ_lt_succ hk) (by omega) p
            (by simpa using hp)
          have harith : idx + 1 + k2 = idx + (k2 + 1) := by omega
          rw [harith] at hres
          simpa using hres

end ProcessSnps

/-! ### Lemmas about the variant and sample orders -/

lemma mem_individualsOf {rows : List Row} {s : String} :
    s ∈ individualsOf rows ↔ ∃ r ∈ rows, r.sample_id = s := by
  unfold individualsOf dropDupsBy
  constructor
  · intro h
    have := mem_of_mem_dropDupsByAux h
    simpa using this
  · intro h
    obtain ⟨r, hr, hs⟩ := h
    have hmem : s ∈ rows.map (fun r => r.sample_id) :=
      List.mem_map.mpr ⟨r, hr, hs⟩
    obtain ⟨b, hb, hkb⟩ :=
      @exists_mem_dropDupsByAux String String _ (fun s => s) s
        (rows.map (fun r => r.sample_id)) [] hmem (by simp)
    exact hkb ▸ hb

lemma mem_snpOrderOf {rows : List Row} {s : String} :
    s ∈ snpOrderOf rows ↔ ∃ r ∈ rows, r.snp_name = s := by
  unfold snpOrderOf snpInfoOf dropDupsBy
  constructor
  · intro h
    obtain ⟨r, hr, hs⟩ := List.mem_map.mp h
    exact ⟨r, mem_of_mem_dropDupsByAux hr, hs⟩
  · intro h
    obtain ⟨r, hr, hs⟩ := h
    obtain ⟨b, hb, hkb⟩ :=
      @exists_mem_dropDupsByAux Row String _ (fun r => r.snp_name) r rows [] hr (by simp)
    exact List.mem_map.mpr ⟨b, hb, hs ▸ hkb⟩

lemma nodup_individualsOf (rows : List Row) : (individualsOf rows).Nodup := by
  have := @nodup_map_key_dropDupsByAux String String _ (fun s : String => s)
    (rows.map (fun r => r.sample_id)) []
  simpa [List.map_id] using this

lemma nodup_snpOrderOf (rows : List Row) : (snpOrderOf rows).Nodup :=
  @nodup_map_key_dropDupsByAux Row String _ (fun r : Row => r.snp_name) rows []

lemma length_genosOf (cfg : Config) (rows : List Row) (s : String) :
    (genosOf cfg rows s).length = (groupSamples rows s).length := by
  unfold genosOf groupSamples
  rw [length_check_genotype_count, List.length_map, List.length_map]

/-! ### Helper lemma for the low-count filter -/

lemma check_genotype_count_getD {gs : List String} {missing snp_id : String} {mc : Int}
    (hmc : 0 < mc) {i : Nat} (hi : i < gs.length) :
    (check_genotype_count gs missing snp_id mc).getD i "" =
      if gs.getD i "" ≠ missing ∧ ((gs.count (gs.getD i "")) : Int) ≤ mc
      then missing else gs.getD i "" := by
  unfold check_genotype_count
  rw [if_neg (by omega)]
  have hilt : i < (gs.map (fun g =>
      if g ≠ missing ∧ 0 < gs.count g ∧ ((gs.count g : Int)) ≤ mc
      then missing else g)).length := by
    rw [List.length_map]
    exact hi
  rw [List.getD_eq_getElem _ _ hilt, List.getElem_map, ← List.getD_eq_getElem _ _ hi]
  have hmem : gs.getD i "" ∈ gs := by
    rw [List.getD_eq_getElem _ _ hi]
    exact List.getElem_mem hi
  have hpos : 0 < gs.count (gs.getD i "") := List.count_pos_iff.mpr hmem
  by_cases h1 : gs.getD i "" ≠ missing ∧ ((gs.count (gs.getD i "")) : Int) ≤ mc
  · rw [if_pos ⟨h1.1, hpos, h1.2⟩, if_pos h1]
  · rw [if_neg (fun hc => h1 ⟨hc.1, hc.2.2⟩), if_neg h1]

/-! ### Concrete inputs used by the claim theorems and witnesses -/

/-- The converter's default configuration (`missing_genotype = "-"`,
`min_genotype_count = 0`, `sex = 3`, `phenotype = -9`). -/
def cfgDefault : Config :=
  { missing_genotype := "-", min_genotype_count := 0, sex := 3, phenotype := -9 }

/-- Scenario A of the specification: one variant `rs1` called `AG` for
three samples and `A-` for the fourth. -/
def rowsScenarioA : List Row :=
  [ { snp_name := "rs1", sample_id := "s1", allele1 := "A", allele2 := "G",
      chromosome := "1", position := "100" },
    { snp_name := "rs1", sample_id := "s2", allele1 := "A", allele2 := "G",
      chromosome := "1", position := "100" },
    { snp_name := "rs1", sample_id := "s3", allele1 := "A", allele2 := "G",
      chromosome := "1", position := "100" },
    { snp_name := "rs1", sample_id := "s4", allele1 := "A", allele2 := "-",
      chromosome := "1", position := "100" } ]

/-! ### Claim theorems -/

/-- C1 (code_bug evidence): on Scenario A input — variant `rs1` called
`"AG"` for samples `s1 s2 s3` and `"A-"` for `s4`, sentinel `"-"`,
`min_count 0` — the conversion does not succeed with `A\tG`/`0\t0` PED
cells as the claim states: `validate_biallelic` counts the sentinel
character of the half-missing call as an allele and aborts the run with
the three-allele error `['-', 'A', 'G']`.  The second conjunct shows the
matrix-fill step itself would have rendered the `"A-"` call as the
uncalled pair `0\t0`, exactly the treatment the claim (and the spec's
Scenario A) describes, so the abort comes solely from the validator
running first on the raw sentinel characters. -/
theorem scenario_a_halfmissing_aborts :
    convert cfgDefault rowsScenarioA =
      .error (.biallelic "rs1" 1 ['-', 'A', 'G']) ∧
    fillCell "-" "A-" "rs1" "s4" = .ok "0\t0" := by
  constructor
  · decide
  · decide

/-- C2 (code_bug evidence): the `convert_file` input-format dispatch
accepts only the tag `'illumina'`; the tag `'wide'` — documented as
supported by the method docstring, offered by the CLI, and named in the
error message itself — falls through to the `Unknown input_format` error
because the `elif input_format == 'wide'` branch is commented out in the
source (converters.py, lines 376-377). -/
theorem convert_file_wide_rejected :
    convert_file_select_reader "illumina" = .ok .illuminaReader ∧
    convert_file_select_reader "wide" = .error (.unknownFormat "wide") ∧
    convert_file_select_reader "csv" = .error (.unknownFormat "csv") := by
  refine ⟨rfl, ?_, ?_⟩
  · decide
  · decide

/-- C4: `check_genotype_count` with `min_count = 0` returns its input
unchanged for every input; with `min_count > 0` it keeps the list length
and rewrites exactly the positions holding a non-missing genotype string
whose literal-string occurrence count is `<= min_count` to the missing
marker, leaving every other entry unchanged.  Counting is by literal
string equality, so the claim's consequences (no allele-order
normalisation; `"AA"` once at `min_count = 2` is rewritten while `"AB"`
five times is untouched) follow from the per-index formula. -/
theorem check_genotype_count_spec :
    (∀ (gs : List String) (missing snp_id : String),
      check_genotype_count gs missing snp_id 0 = gs) ∧
    (∀ (gs : List String) (missing snp_id : String) (mc : Int), 0 < mc →
      (check_genotype_count gs missing snp_id mc).length = gs.length ∧
      ∀ i, i < gs.length →
        (check_genotype_count gs missing snp_id mc).getD i "" =
          if gs.getD i "" ≠ missing ∧ ((gs.count (gs.getD i "")) : Int) ≤ mc
          then missing else gs.getD i "") := by
  constructor
  · intro gs missing snp_id
    unfold check_genotype_count
    rw [if_pos (by omega)]
  · intro gs missing snp_id mc hmc
    exact ⟨length_check_genotype_count gs missing snp_id mc,
      fun i hi => check_genotype_count_getD hmc hi⟩

/-- Witness for C4: at `min_count = 2` the genotype `"AA"` occurring once
is rewritten to `"NN"` while `"AB"` occurring five times is untouched, and
`min_count = 0` leaves a list (including a half-missing call) unchanged. -/
theorem check_genotype_count_spec_witness :
    (check_genotype_count ["AA", "AB", "AB", "AB", "AB", "AB"] "NN" "rs2" 2).getD 0 "" =
      "NN" ∧
    (check_genotype_count ["AA", "AB", "AB", "AB", "AB", "AB"] "NN" "rs2" 2).getD 1 "" =
      "AB" ∧
    check_genotype_count ["AA", "A-"] "--" "rs0" 0 = ["AA", "A-"] := by
  refine ⟨?_, ?_, check_genotype_count_spec.1 ["AA", "A-"] "--" "rs0"⟩
  · have h := (check_genotype_count_spec.2 ["AA", "AB", "AB", "AB", "AB", "AB"]
      "NN" "rs2" 2 (by decide)).2 0 (by decide)
    rw [h]
    decide
  · have h := (check_genotype_count_spec.2 ["AA", "AB", "AB", "AB", "AB", "AB"]
      "NN" "rs2" 2 (by decide)).2 1 (by decide)
    rw [h]
    decide

/-- C5: a call is treated as missing only when it equals the doubled
sentinel: the half-missing call `"A-"` contributes both its characters —
including the sentinel — to the allele set used by biallelic validation,
and it participates in the low-count filter's counting like any called
genotype (so at threshold 1 its single occurrence is rewritten); a call
list containing `"AG"` and `"A-"` has allele set `{'-', 'A', 'G'}` of
size 3 and always fails validation. -/
theorem halfmissing_counts_as_called :
    (∀ gs : List String, "A-" ∈ gs →
      '-' ∈ allelesOf gs "--" ∧ 'A' ∈ allelesOf gs "--") ∧
    (∀ (snp_id : String) (mc : Int), 0 < mc →
      check_genotype_count ["A-"] "--" snp_id mc = ["--"]) ∧
    allelesOf ["AG", "A-"] "--" = {'-', 'A', 'G'} ∧
    (∀ (gs : List String) (snp_id : String) (n : Nat), "AG" ∈ gs → "A-" ∈ gs →
      validate_biallelic gs "--" snp_id n =
        .error (.biallelic snp_id n (sortedAllelesOf gs "--"))) := by
  have hcontrib : ∀ gs : List String, "A-" ∈ gs →
      '-' ∈ allelesOf gs "--" ∧ 'A' ∈ allelesOf gs "--" := by
    intro gs h
    exact ⟨mem_allelesOf.mpr ⟨"A-", h, by decide, by decide⟩,
      mem_allelesOf.mpr ⟨"A-", h, by decide, by decide⟩⟩
  refine ⟨hcontrib, ?_, by decide, ?_⟩
  · intro snp_id mc hmc
    unfold check_genotype_count
    rw [if_neg (by omega)]
    have hc : (["A-"] : List String).count "A-" = 1 := by decide
    simp only [List.map]
    rw [hc, if_pos ⟨by decide, by omega, by omega⟩]
  · intro gs snp_id n h1 h2
    apply validate_biallelic_err
    have hsub : ({'-', 'A', 'G'} : Finset Char) ⊆ allelesOf gs "--" := by
      intro c hc
      simp only [Finset.mem_insert, Finset.mem_singleton] at hc
      rcases hc with rfl | rfl | rfl
      · exact (hcontrib gs h2).1
      · exact (hcontrib gs h2).2
      · exact mem_allelesOf.mpr ⟨"AG", h1, by decide, by decide⟩
    have hcard := Finset.card_le_card hsub
    have h3 : ({'-', 'A', 'G'} : Finset Char).card = 3 := by decide
    omega

/-- Witness for C5: a variant whose two calls are `"AG"` and `"A-"` fails
validation with the sorted three-character set, and the filter at
threshold 1 rewrites the single half-missing call. -/
theorem halfmissing_counts_as_called_witness :
    validate_biallelic ["AG", "A-"] "--" "rs1" 1 =
      .error (.biallelic "rs1" 1 ['-', 'A', 'G']) ∧
    check_genotype_count ["A-"] "--" "rs1" 1 = ["--"] := by
  constructor
  · have h := halfmissing_counts_as_called.2.2.2 ["AG", "A-"] "rs1" 1
      (by decide) (by decide)
    have h2 : sortedAllelesOf ["AG", "A-"] "--" = ['-', 'A', 'G'] := by decide
    rw [h2] at h
    exact h
  · exact halfmissing_counts_as_called.2.1 "rs1" 1 (by decide)

/-- Pairwise first-occurrence-index ordering of the variant order. -/
lemma pairwise_idx_snpOrderOf (rows : List Row) :
    List.Pairwise (fun s t => idxOfStr s (rows.map (fun r => r.snp_name)) <
      idxOfStr t (rows.map (fun r => r.snp_name))) (snpOrderOf rows) := by
  unfold snpOrderOf snpInfoOf dropDupsBy
  rw [List.pairwise_map]
  exact pairwise_idx_dropDupsByAux (fun r => r.snp_name) rows []

/-- Pairwise first-occurrence-index ordering of the sample order. -/
lemma pairwise_idx_individualsOf (rows : List Row) :
    List.Pairwise (fun s t => idxOfStr s (rows.map (fun r => r.sample_id)) <
      idxOfStr t (rows.map (fun r => r.sample_id))) (individualsOf rows) := by
  unfold individualsOf dropDupsBy
  have h := pairwise_idx_dropDupsByAux (fun s : String => s)
    (rows.map (fun r => r.sample_id)) []
  simpa [List.map_id] using h

/-- Index-level consequence of a pairwise ordering on `getD` values. -/
lemma pairwise_getD_lt {l : List String} {f : String → Nat}
    (h : List.Pairwise (fun s t => f s < f t) l) :
    ∀ i j, i < j → j < l.length → f (l.getD i "") < f (l.getD j "") := by
  intro i j hij hj
  have hi : i < l.length := Nat.lt_trans hij hj
  rw [List.getD_eq_getElem _ _ hi, List.getD_eq_getElem _ _ hj]
  exact List.pairwise_iff_getElem.mp h i j hi hj hij

/-- C6: the variant order and the sample order used in all outputs are the
orders of first appearance of each variant id and sample id in the input
rows: both lists are duplicate-free, contain exactly the ids mentioned by
the rows, and are strictly increasing in first-occurrence index; on a
successful run the returned sample list and MAP lines are rendered from
exactly these orders.  Both orders are Lean functions of the row list
alone, hence deterministic pure functions of the input sequence. -/
theorem first_appearance_order :
    ∀ rows : List Row,
      (snpOrderOf rows).Nodup ∧
      (individualsOf rows).Nodup ∧
      (∀ s, s ∈ snpOrderOf rows ↔ ∃ r ∈ rows, r.snp_name = s) ∧
      (∀ s, s ∈ individualsOf rows ↔ ∃ r ∈ rows, r.sample_id = s) ∧
      (∀ i j, i < j → j < (snpOrderOf rows).length →
        idxOfStr ((snpOrderOf rows).getD i "") (rows.map (fun r => r.snp_name)) <
          idxOfStr ((snpOrderOf rows).getD j "") (rows.map (fun r => r.snp_name))) ∧
      (∀ i j, i < j → j < (individualsOf rows).length →
        idxOfStr ((individualsOf rows).getD i "") (rows.map (fun r => r.sample_id)) <
          idxOfStr ((individualsOf rows).getD j "") (rows.map (fun r => r.sample_id))) ∧
      (∀ (cfg : Config) (res : ConvertResult), convert cfg rows = .ok res →
        res.individuals = individualsOf rows ∧
        res.mapLines = (snpInfoOf rows).map mapLine) := by
  intro rows
  refine ⟨nodup_snpOrderOf rows, nodup_individualsOf rows,
    fun s => mem_snpOrderOf, fun s => mem_individualsOf,
    pairwise_getD_lt (pairwise_idx_snpOrderOf rows),
    pairwise_getD_lt (pairwise_idx_individualsOf rows), ?_⟩
  intro cfg res hconv
  unfold convert at hconv
  cases hbm : buildMatrix cfg rows with
  | error e => rw [hbm] at hconv; exact absurd hconv (by simp)
  | ok m =>
    rw [hbm] at hconv
    have := Except.ok.inj hconv
    rw [← this]
    exact ⟨rfl, rfl⟩

/-- Input with interleaved variant and sample first appearances, used to
witness the ordering claims. -/
def rowsOrderW : List Row :=
  [ { snp_name := "rs2", sample_id := "b", allele1 := "A", allele2 := "A",
      chromosome := "1", position := "5" },
    { snp_name := "rs1", sample_id := "a", allele1 := "G", allele2 := "G",
      chromosome := "1", position := "6" },
    { snp_name := "rs2", sample_id := "a", allele1 := "A", allele2 := "A",
      chromosome := "1", position := "5" } ]

/-- Witness for C6: on a concrete interleaved input the variant order is
`[rs2, rs1]` and the sample order `[b, a]`, strictly increasing in
first-occurrence index. -/
theorem first_appearance_order_witness :
    idxOfStr ((snpOrderOf rowsOrderW).getD 0 "") (rowsOrderW.map (fun r => r.snp_name)) <
      idxOfStr ((snpOrderOf rowsOrderW).getD 1 "") (rowsOrderW.map (fun r => r.snp_name)) ∧
    idxOfStr ((individualsOf rowsOrderW).getD 0 "") (rowsOrderW.map (fun r => r.sample_id)) <
      idxOfStr ((individualsOf rowsOrderW).getD 1 "") (rowsOrderW.map (fun r => r.sample_id)) ∧
    snpOrderOf rowsOrderW = ["rs2", "rs1"] ∧
    individualsOf rowsOrderW = ["b", "a"] := by
  refine ⟨(first_appearance_order rowsOrderW).2.2.2.2.1 0 1 (by decide) (by decide),
    (first_appearance_order rowsOrderW).2.2.2.2.2.1 0 1 (by decide) (by decide),
    by decide, by decide⟩

/-- Input whose first variant sits on chromosome `PseudoX`, with a
successful conversion. -/
def rowsPseudoX : List Row :=
  [ { snp_name := "rs1", sample_id := "s1", allele1 := "A", allele2 := "G",
      chromosome := "PseudoX", position := "100" },
    { snp_name := "rs2", sample_id := "s2", allele1 := "T", allele2 := "T",
      chromosome := "2", position := "200" } ]

/-- The conversion result of `rowsPseudoX` under the default configuration. -/
def resPseudoX : ConvertResult :=
  { mapLines := ["XY\trs1\t0\t100", "2\trs2\t0\t200"]
    pedLines := ["s1\ts1\t0\t0\t3\t-9\tA\tG\t0\t0", "s2\ts2\t0\t0\t3\t-9\t0\t0\tT\tT"]
    individuals := ["s1", "s2"] }

/-- C9: on a successful run the variant-table output has exactly one line
per variant, in variant order, of the form
`chromosome TAB variant_id TAB 0 TAB position`, where chromosome
`"PseudoX"` is rendered `"XY"` and every other chromosome and every
position is the value of the first input row mentioning the variant,
passed through unchanged. -/
theorem map_lines_spec :
    ∀ (cfg : Config) (rows : List Row) (res : ConvertResult),
      convert cfg rows = .ok res →
      res.mapLines.length = (snpOrderOf rows).length ∧
      (snpInfoOf rows).map (fun r => r.snp_name) = snpOrderOf rows ∧
      (∀ i, i < (snpInfoOf rows).length →
        res.mapLines.getD i "" =
          (if ((snpInfoOf rows).getD i default).chromosome = "PseudoX" then "XY"
            else ((snpInfoOf rows).getD i default).chromosome) ++ "\t" ++
            ((snpInfoOf rows).getD i default).snp_name ++ "\t0\t" ++
            ((snpInfoOf rows).getD i default).position) ∧
      (∀ v ∈ snpInfoOf rows, v ∈ rows ∧
        rows.find? (fun y => y.snp_name == v.snp_name) = some v) := by
  intro cfg rows res hconv
  have hmapl : res.mapLines = (snpInfoOf rows).map mapLine := by
    unfold convert at hconv
    cases hbm : buildMatrix cfg rows with
    | error e => rw [hbm] at hconv; exact absurd hconv (by simp)
    | ok m =>
      rw [hbm] at hconv
      rw [← Except.ok.inj hconv]
  refine ⟨by rw [hmapl, List.length_map]; unfold snpOrderOf; rw [List.length_map],
    rfl, ?_, ?_⟩
  · intro i hi
    have hilt : i < ((snpInfoOf rows).map mapLine).length := by
      rw [List.length_map]
      exact hi
    rw [hmapl, List.getD_eq_getElem _ _ hilt, List.getElem_map,
      ← List.getD_eq_getElem _ _ hi]
    rfl
  · intro v hv
    have hv2 : v ∈ dropDupsByAux (fun r : Row => r.snp_name) rows [] := hv
    exact ⟨mem_of_mem_dropDupsByAux hv2, find_dropDupsByAux hv2⟩

/-- Witness for C9: on `rowsPseudoX` the first MAP line renders `PseudoX`
as `XY` and the second passes chromosome `2` through unchanged. -/
theorem map_lines_spec_witness :
    resPseudoX.mapLines.getD 0 "" = "XY\trs1\t0\t100" ∧
    resPseudoX.mapLines.getD 1 "" = "2\trs2\t0\t200" ∧
    resPseudoX.mapLines.length = 2 := by
  have h := map_lines_spec cfgDefault rowsPseudoX resPseudoX (by decide)
  refine ⟨?_, ?_, ?_⟩
  · rw [h.2.2.1 0 (by decide)]
    decide
  · rw [h.2.2.1 1 (by decide)]
    decide
  · rw [h.1]
    decide

/-! ### Column-allele bound for successful conversions -/

lemma toList_renderPair (a b : Char) : (renderPair a b).toList = [a, '\t', b] := rfl

lemma cellAlleles_renderPair (a b : Char) : cellAlleles (renderPair a b) ⊆ {a, b} := by
  unfold cellAlleles
  by_cases h : renderPair a b = "0\t0"
  · rw [if_pos h]
    exact Finset.empty_subset _
  · rw [if_neg h]
    intro x hx
    rw [List.mem_toFinset, List.mem_filter] at hx
    rw [toList_renderPair] at hx
    have hx1 := hx.1
    have hx2 : x ≠ '\t' := by simpa using hx.2
    simp only [List.mem_cons, List.not_mem_nil, or_false] at hx1
    rcases hx1 with rfl | rfl | rfl
    · exact Finset.mem_insert_self _ _
    · exact absurd rfl hx2
    · exact Finset.mem_insert_of_mem (Finset.mem_singleton_self _)

lemma columnAlleles_subset {cfg : Config} {rows : List Row} {m : List (List String)}
    (hbm : buildMatrix cfg rows = .ok m) {j : Nat} (hj : j < (snpOrderOf rows).length) :
    columnAlleles m j ⊆ allelesOf (genosOf cfg rows ((snpOrderOf rows).getD j ""))
      (cfg.missing_genotype ++ cfg.missing_genotype) := by
  intro x hx
  unfold columnAlleles at hx
  obtain ⟨i, _, hxc⟩ := Finset.mem_biUnion.mp hx
  rcases processSnps_cell hbm i j with hsame | ⟨k, hk, hjk, p, hp, _, hfc⟩
  · rw [hsame, cell_initMatrix] at hxc
    simp [cellAlleles] at hxc
  · have hkj : k = j := by omega
    subst hkj
    rcases fillCell_ok_cases hfc with hc0 | ⟨a, b, hab, hcell, hne, _⟩
    · rw [hc0] at hxc
      simp [cellAlleles] at hxc
    · rw [hcell] at hxc
      have hxab := cellAlleles_renderPair a b hxc
      have hg : p.2 ∈ genosOf cfg rows ((snpOrderOf rows).getD k "") :=
        (List.of_mem_zip hp).2
      have hmemg : x ∈ p.2.toList := by
        rw [hab]
        simp only [Finset.mem_insert, Finset.mem_singleton] at hxab
        rcases hxab with rfl | rfl
        · exact List.mem_cons_self _ _
        · exact List.mem_cons_of_mem _ (List.mem_cons_self _ _)
      exact mem_allelesOf.mpr ⟨p.2, hg, hne, hmemg⟩

lemma columnAlleles_empty_of_oob {cfg : Config} {rows : List Row}
    {m : List (List String)} (hbm : buildMatrix cfg rows = .ok m) {j : Nat}
    (hj : ¬ j < (snpOrderOf rows).length) : columnAlleles m j = ∅ := by
  unfold columnAlleles
  ext x
  simp only [Finset.mem_biUnion, Finset.not_mem_empty, iff_false]
  rintro ⟨i, _, hxc⟩
  rcases processSnps_cell hbm i j with hsame | ⟨k, hk, hjk, _⟩
  · rw [hsame, cell_initMatrix] at hxc
    simp [cellAlleles] at hxc
  · omega

/-- C3: after the low-count filter, a variant whose non-missing calls carry
more than 2 distinct allele characters makes the conversion fail: no
result is produced whenever any variant offends, and the first offending
variant (with all earlier variants clean and fillable) is named in the
error together with its 1-based position in variant order and its sorted
character set; the reported list is sorted, duplicate-free, and is exactly
the offending allele set.  Conversely a successful conversion leaves every
variant column of the genotype matrix with at most 2 distinct allele
characters over its non-uncalled cells. -/
theorem biallelic_enforced :
    ∀ (cfg : Config) (rows : List Row),
      ((∃ k, k < (snpOrderOf rows).length ∧
          2 < (allelesOf (genosOf cfg rows ((snpOrderOf rows).getD k ""))
            (cfg.missing_genotype ++ cfg.missing_genotype)).card) →
        ∀ res, convert cfg rows ≠ .ok res) ∧
      (∀ k, k < (snpOrderOf rows).length →
        2 < (allelesOf (genosOf cfg rows ((snpOrderOf rows).getD k ""))
          (cfg.missing_genotype ++ cfg.missing_genotype)).card →
        (∀ k2, k2 < k →
          (allelesOf (genosOf cfg rows ((snpOrderOf rows).getD k2 ""))
            (cfg.missing_genotype ++ cfg.missing_genotype)).card ≤ 2) →
        (∀ k2, k2 < k → ∀ g ∈ genosOf cfg rows ((snpOrderOf rows).getD k2 ""),
          fillCellOk cfg.missing_genotype g) →
        convert cfg rows =
          .error (.biallelic ((snpOrderOf rows).getD k "") (k + 1)
            (sortedAllelesOf (genosOf cfg rows ((snpOrderOf rows).getD k ""))
              (cfg.missing_genotype ++ cfg.missing_genotype)))) ∧
      (∀ (gs : List String) (missing : String),
        (sortedAllelesOf gs missing).Sorted (fun a b => a ≤ b) ∧
        (sortedAllelesOf gs missing).Nodup ∧
        (sortedAllelesOf gs missing).toFinset = allelesOf gs missing) ∧
      (∀ res, convert cfg rows = .ok res →
        ∃ m, buildMatrix cfg rows = .ok m ∧
          ∀ j, (columnAlleles m j).card ≤ 2) := by
  intro cfg rows
  refine ⟨?_, ?_, ?_, ?_⟩
  · intro hoff res hconv
    unfold convert at hconv
    cases hbm : buildMatrix cfg rows with
    | error e => rw [hbm] at hconv; exact absurd hconv (by simp)
    | ok m => exact processSnps_not_ok_of_offender hoff m hbm
  · intro k hk hcard hprev hfill
    have herr := @processSnps_err_first cfg rows (individualsOf rows)
      (snpOrderOf rows) 0
      (initMatrix (individualsOf rows).length (snpOrderOf rows).length)
      k hk hcard hprev hfill
    unfold convert buildMatrix
    rw [herr]
    have harith : 0 + k + 1 = k + 1 := by omega
    rw [harith]
  · intro gs missing
    exact ⟨sorted_sortChars _, nodup_sortChars (nodup_distinctAlleles gs missing),
      toFinset_sortedAllelesOf gs missing⟩
  · intro res hconv
    unfold convert at hconv
    cases hbm : buildMatrix cfg rows with
    | error e => rw [hbm] at hconv; exact absurd hconv (by simp)
    | ok m =>
      refine ⟨m, rfl, ?_⟩
      intro j
      by_cases hj : j < (snpOrderOf rows).length
      · have hsub := columnAlleles_subset hbm hj
        have hval := processSnps_validated hbm j hj
        exact le_trans (Finset.card_le_card hsub) hval
      · rw [columnAlleles_empty_of_oob hbm hj]
        simp

/-- Input whose second variant carries three distinct alleles. -/
def rowsTriallelic : List Row :=
  [ { snp_name := "rs1", sample_id := "s1", allele1 := "A", allele2 := "A",
      chromosome := "1", position := "10" },
    { snp_name := "rs2", sample_id := "s1", allele1 := "A", allele2 := "B",
      chromosome := "1", position := "20" },
    { snp_name := "rs2", sample_id := "s2", allele1 := "C", allele2 := "C",
      chromosome := "1", position := "20" } ]

/-- Witness for C3: with `rs1` clean and `rs2` carrying alleles
`{A, B, C}`, the conversion fails naming `rs2`, its 1-based position 2 and
the sorted set `[A, B, C]`. -/
theorem biallelic_enforced_witness :
    convert cfgDefault rowsTriallelic =
      .error (.biallelic "rs2" 2 ['A', 'B', 'C']) := by
  have h := (biallelic_enforced cfgDefault rowsTriallelic).2.1 1 (by decide)
    (by decide) (by decide) (by decide)
  have h2 : sortedAllelesOf (genosOf cfgDefault rowsTriallelic
      ((snpOrderOf rowsTriallelic).getD 1 ""))
      (cfgDefault.missing_genotype ++ cfgDefault.missing_genotype) =
      ['A', 'B', 'C'] := by decide
  have h3 : (snpOrderOf rowsTriallelic).getD 1 "" = "rs2" := by decide
  rw [h2, h3] at h
  exact h

/-! ### PED shape and sparse-overwrite lemmas -/

lemma mem_groupSamples {rows : List Row} {s v : String} :
    s ∈ groupSamples rows v ↔ ∃ r ∈ rows, r.snp_name = v ∧ r.sample_id = s := by
  unfold groupSamples
  simp only [List.mem_map, List.mem_filter, decide_eq_true_eq]
  constructor
  · rintro ⟨r, ⟨hr, hsnp⟩, hsid⟩
    exact ⟨r, hr, hsnp, hsid⟩
  · rintro ⟨r, hr, hsnp, hsid⟩
    exact ⟨r, ⟨hr, hsnp⟩, hsid⟩

/-- C7: on a successful run the PED lines correspond one to one, in order,
with the output sample-id list: line `i` is
`id TAB id TAB 0 TAB 0 TAB sex TAB phenotype TAB` followed by the
tab-joined cells of matrix row `i`, whose width is exactly the number of
variants; sex and phenotype are the fixed configured values in every
line; and any `(sample, variant)` pair absent from the input keeps the
uncalled cell `0 TAB 0`. -/
theorem ped_roundtrip_shape :
    ∀ (cfg : Config) (rows : List Row) (res : ConvertResult),
      convert cfg rows = .ok res →
      ∃ m, buildMatrix cfg rows = .ok m ∧
        res.individuals = individualsOf rows ∧
        res.pedLines.length = res.individuals.length ∧
        m.length = res.individuals.length ∧
        (∀ row ∈ m, row.length = (snpOrderOf rows).length) ∧
        (∀ i, i < res.individuals.length →
          res.pedLines.getD i "" =
            res.individuals.getD i "" ++ "\t" ++ res.individuals.getD i "" ++
              "\t0\t0\t" ++ toString cfg.sex ++ "\t" ++ toString cfg.phenotype ++
              "\t" ++ String.intercalate "\t" (m.getD i [])) ∧
        (∀ i j, i < (individualsOf rows).length → j < (snpOrderOf rows).length →
          (∀ r ∈ rows, ¬(r.sample_id = (individualsOf rows).getD i "" ∧
            r.snp_name = (snpOrderOf rows).getD j "")) →
          cell m i j = "0\t0") := by
  intro cfg rows res hconv
  unfold convert at hconv
  cases hbm : buildMatrix cfg rows with
  | error e => rw [hbm] at hconv; exact absurd hconv (by simp)
  | ok m =>
    rw [hbm] at hconv
    have hres := (Except.ok.inj hconv).symm
    have hdims : dims (individualsOf rows).length (snpOrderOf rows).length m :=
      processSnps_dims hbm (dims_initMatrix _ _)
    have hmlen : m.length = (individualsOf rows).length := hdims.1
    have hziplen : ((individualsOf rows).zip m).length = (individualsOf rows).length := by
      rw [List.length_zip, hmlen, Nat.min_self]
    refine ⟨m, rfl, by rw [hres], ?_, ?_, hdims.2, ?_, ?_⟩
    · rw [hres]
      simp only [List.length_map]
      rw [hziplen]
    · rw [hres]
      exact hmlen
    · intro i hi
      rw [hres] at hi ⊢
      simp only at hi ⊢
      have hilt : i < (((individualsOf rows).zip m).map
          (fun p => pedLine cfg p.1 p.2)).length := by
        rw [List.length_map, hziplen]
        exact hi
      have hizip : i < ((individualsOf rows).zip m).length := by
        rw [hziplen]
        exact hi
      have himl : i < m.length := by
        rw [hmlen]
        exact hi
      rw [List.getD_eq_getElem _ _ hilt, List.getElem_map, List.getElem_zip,
        List.getD_eq_getElem _ _ hi, List.getD_eq_getElem _ _ himl]
      rfl
    · intro i j hi hj habs
      rcases processSnps_cell hbm i j with hsame | ⟨k, hk, hjk, p, hp, hidx, hfc⟩
      · rw [hsame, cell_initMatrix]
      · have hkj : k = j := by omega
        subst hkj
        have hps : p.1 ∈ groupSamples rows ((snpOrderOf rows).getD k "") :=
          (List.of_mem_zip hp).1
        obtain ⟨r, hr, hsnp, hsid⟩ := mem_groupSamples.mp hps
        have hmem : p.1 ∈ individualsOf rows :=
          mem_individualsOf.mpr ⟨r, hr, hsid⟩
        have hgetD : (individualsOf rows).getD i "" = p.1 := by
          rw [← hidx]
          exact getD_idxOfStr hmem ""
        exact absurd ⟨hgetD ▸ hsid, hsnp⟩ (habs r hr)

/-- Witness for C7: on `rowsPseudoX` the first PED line is rendered from
sample `s1` and matrix row `[A\tG, 0\t0]`, the uncalled cell belonging to
the `(s1, rs2)` pair absent from the input; the PED line count equals the
sample-id count. -/
theorem ped_roundtrip_shape_witness :
    resPseudoX.pedLines.getD 0 "" = "s1\ts1\t0\t0\t3\t-9\tA\tG\t0\t0" ∧
    resPseudoX.pedLines.length = resPseudoX.individuals.length := by
  obtain ⟨m, hm, hind, hlen, _, _, hped, habs⟩ :=
    ped_roundtrip_shape cfgDefault rowsPseudoX resPseudoX (by decide)
  refine ⟨?_, hlen⟩
  have hmv : m = [["A\tG", "0\t0"], ["0\t0", "T\tT"]] := by
    have hbm2 : buildMatrix cfgDefault rowsPseudoX =
        .ok [["A\tG", "0\t0"], ["0\t0", "T\tT"]] := by decide
    rw [hm] at hbm2
    exact Except.ok.inj hbm2
  have h0 := hped 0 (by decide)
  rw [hmv] at h0
  rw [h0]
  decide

/-- C10: when the input contains several calls for the same
`(variant, sample)` pair, the matrix cell of that pair is produced from
the last such call in input order (later calls overwrite earlier ones):
the cell equals the rendered value of the final element of the group's
`(sample, genotype)` pair list — the genotype list after the per-variant
low-count filter, which rewrites values in place and preserves positions —
restricted to that sample. -/
theorem last_call_wins :
    ∀ (cfg : Config) (rows : List Row) (m : List (List String)) (i j : Nat),
      buildMatrix cfg rows = .ok m →
      i < (individualsOf rows).length → j < (snpOrderOf rows).length →
      ∀ p, (((groupSamples rows ((snpOrderOf rows).getD j "")).zip
            (genosOf cfg rows ((snpOrderOf rows).getD j ""))).filter
          (fun q => q.1 = (individualsOf rows).getD i "")).getLast? = some p →
        fillCell cfg.missing_genotype p.2 ((snpOrderOf rows).getD j "") p.1 =
          .ok (cell m i j) := by
  intro cfg rows m i j hbm hi hj p hp
  have hfiltereq :
      ((groupSamples rows ((snpOrderOf rows).getD j "")).zip
          (genosOf cfg rows ((snpOrderOf rows).getD j ""))).filter
        (fun q => q.1 = (individualsOf rows).getD i "") =
      ((groupSamples rows ((snpOrderOf rows).getD j "")).zip
          (genosOf cfg rows ((snpOrderOf rows).getD j ""))).filter
        (fun q => idxOfStr q.1 (individualsOf rows) == i) := by
    apply List.filter_congr
    intro q hq
    have hqs : q.1 ∈ groupSamples rows ((snpOrderOf rows).getD j "") :=
      (List.of_mem_zip hq).1
    obtain ⟨r, hr, hsnp, hsid⟩ := mem_groupSamples.mp hqs
    have hmem : q.1 ∈ individualsOf rows := mem_individualsOf.mpr ⟨r, hr, hsid⟩
    cases hb : (idxOfStr q.1 (individualsOf rows) == i) with
    | true =>
      have hidx : idxOfStr q.1 (individualsOf rows) = i := by
        simpa using hb
      have hgd : (individualsOf rows).getD i "" = q.1 := by
        rw [← hidx]
        exact getD_idxOfStr hmem ""
      rw [hgd]
      simp
    | false =>
      have hidx : idxOfStr q.1 (individualsOf rows) ≠ i := by
        simpa using hb
      have hne : q.1 ≠ (individualsOf rows).getD i "" := by
        intro heq
        exact hidx (heq ▸ idxOfStr_of_getD (nodup_individualsOf rows) hi)
      simpa using hne
  rw [hfiltereq] at hp
  have hres := @processSnps_last cfg rows (individualsOf rows)
    (individualsOf rows).length (snpOrderOf rows).length (snpOrderOf rows) 0
    (initMatrix (individualsOf rows).length (snpOrderOf rows).length) m
    hbm (dims_initMatrix _ _) i j hi hj (by omega) p hp
  simpa using hres

/-- Input with two calls for the pair `(rs1, s1)`. -/
def rowsOverwrite : List Row :=
  [ { snp_name := "rs1", sample_id := "s1", allele1 := "A", allele2 := "A",
      chromosome := "1", position := "1" },
    { snp_name := "rs1", sample_id := "s1", allele1 := "G", allele2 := "G",
      chromosome := "1", position := "1" } ]

/-- Witness for C10: with calls `AA` then `GG` for `(rs1, s1)`, the matrix
cell holds the later call `G\tG`. -/
theorem last_call_wins_witness :
    fillCell cfgDefault.missing_genotype "GG" "rs1" "s1" = .ok "G\tG" ∧
    buildMatrix cfgDefault rowsOverwrite = .ok [["G\tG"]] := by
  have hbm : buildMatrix cfgDefault rowsOverwrite = .ok [["G\tG"]] := by decide
  have h := last_call_wins cfgDefault rowsOverwrite [["G\tG"]] 0 0 hbm
    (by decide) (by decide) ("s1", "GG") (by decide)
  have h2 : (snpOrderOf rowsOverwrite).getD 0 "" = "rs1" := by decide
  have h3 : cell [["G\tG"]] 0 0 = "G\tG" := by decide
  rw [h2, h3] at h
  exact ⟨h, hbm⟩

/-- C8: in the wide-format reader, a nonempty data line with fewer than 4
tab-separated columns is skipped with a warning recording its line number
while processing continues on the remaining lines; a line with at least 4
columns whose genotype-cell count differs from the header's individual
count aborts with a fatal error naming the line number and both counts; a
well-shaped line is processed even when individual cells are malformed,
and a genotype cell whose length is not 2 yields a row whose two alleles
are both the missing-genotype sentinel, without failing the line.  (A
fully empty line is skipped silently before the column count is examined,
so it is not treated as a malformed data line.) -/
theorem wide_line_error_handling :
    (∀ (cfg : Config) (inds : List String) (line : String) (rest : List String)
        (n : Nat), line ≠ "" → (splitTab line).length < 4 →
      readWideLines cfg inds (line :: rest) n =
        match readWideLines cfg inds rest (n + 1) with
        | .error e => .error e
        | .ok w => .ok { rows := w.rows, warn_lines := n :: w.warn_lines }) ∧
    (∀ (cfg : Config) (inds : List String) (line : String) (rest : List String)
        (n : Nat), 4 ≤ (splitTab line).length →
      ((splitTab line).drop 3).length ≠ inds.length →
      readWideLines cfg inds (line :: rest) n =
        .error (.lineGenoCount n inds.length ((splitTab line).drop 3).length)) ∧
    (∀ (cfg : Config) (inds : List String) (line : String) (rest : List String)
        (n : Nat), 4 ≤ (splitTab line).length →
      ((splitTab line).drop 3).length = inds.length →
      readWideLines cfg inds (line :: rest) n =
        match readWideLines cfg inds rest (n + 1) with
        | .error e => .error e
        | .ok w =>
          .ok { rows := (inds.zip ((splitTab line).drop 3)).map (fun p =>
                  mkWideRow cfg ((splitTab line).getD 0 "") ((splitTab line).getD 1 "")
                    ((splitTab line).getD 2 "") p.1 p.2) ++ w.rows
                warn_lines := w.warn_lines }) ∧
    (∀ (cfg : Config) (snp_id chromosome position ind_id g : String), g.length ≠ 2 →
      (mkWideRow cfg snp_id chromosome position ind_id g).allele1 = cfg.missing_genotype ∧
      (mkWideRow cfg snp_id chromosome position ind_id g).allele2 = cfg.missing_genotype) := by
  have hempty : (splitTab "").length = 1 := by decide
  refine ⟨?_, ?_, ?_, ?_⟩
  · intro cfg inds line rest n hline hlt
    simp only [readWideLines]
    rw [if_neg hline, if_pos hlt]
  · intro cfg inds line rest n hge hneq
    have hline : line ≠ "" := by
      intro heq
      rw [heq, hempty] at hge
      omega
    simp only [readWideLines]
    rw [if_neg hline, if_neg (by omega), if_pos hneq]
  · intro cfg inds line rest n hge heq
    have hline : line ≠ "" := by
      intro h0
      rw [h0, hempty] at hge
      omega
    simp only [readWideLines]
    rw [if_neg hline, if_neg (by omega), if_neg (by omega)]
  · intro cfg snp_id chromosome position ind_id g hg
    have hgl : g.data.length ≠ 2 := hg
    cases hl : g.data with
    | nil => simp [mkWideRow, hl]
    | cons a t =>
      cases t with
      | nil => simp [mkWideRow, hl]
      | cons b t2 =>
        cases t2 with
        | nil =>
          rw [hl] at hgl
          simp at hgl
        | cons c t3 => simp [mkWideRow, hl]

/-- Witness for C8: a one-column line is skipped with a warning for line 2,
a four-column line with one genotype against a two-individual header is a
fatal error, a malformed single-character cell produces sentinel alleles,
and a well-shaped line with such a cell still yields its rows. -/
theorem wide_line_error_handling_witness :
    readWideLines cfgDefault ["i1", "i2"] ["bad"] 2 =
      .ok { rows := [], warn_lines := [2] } ∧
    readWideLines cfgDefault ["i1", "i2"] ["rs3\t1\t100\tAA"] 2 =
      .error (.lineGenoCount 2 2 1) ∧
    (mkWideRow cfgDefault "rs3" "1" "100" "i2" "N").allele1 = "-" ∧
    (mkWideRow cfgDefault "rs3" "1" "100" "i2" "N").allele2 = "-" := by
  refine ⟨?_, ?_, ?_, ?_⟩
  · have h := wide_line_error_handling.1 cfgDefault ["i1", "i2"] "bad" [] 2
      (by decide) (by decide)
    rw [h]
    decide
  · have h := wide_line_error_handling.2.1 cfgDefault ["i1", "i2"] "rs3\t1\t100\tAA"
      [] 2 (by decide) (by decide)
    rw [h]
    decide
  · exact (wide_line_error_handling.2.2.2 cfgDefault "rs3" "1" "100" "i2" "N"
      (by decide)).1
  · exact (wide_line_error_handling.2.2.2 cfgDefault "rs3" "1" "100" "i2" "N"
      (by decide)).2

end Mtg2f
